import Mathlib

/-!
Verification development for the eida-federator request processor
(`eidangservices/federator/server/process.py` and
`eidangservices/federator/server/request.py`).

The Python code is embedded shallowly: pure functions become Lean
functions, the polling loops become fuel-indexed recursions over explicit
schedules, and exceptions become `Except`/`Option` results.  Python
`for idx, result in enumerate(lst)` loops that call `lst.pop(idx)` while
iterating are embedded with the exact CPython semantics: removing the
element at the current index shifts the following element into that slot,
so that element is skipped until the next sweep of the enclosing
`while True` loop.
-/

namespace Federator

/-- Station/channel selector carried by a stream epoch (class `Stream` of
`eidangservices.utils.sncl`; the module is not part of the sources, the
fields are the ones `process.py` reads via `getattr`). -/
structure SnclStream where
  network : String
  station : String
  location : String
  channel : String
deriving DecidableEq, Repr

/-- A stream epoch: a selector plus a time window (`StreamEpoch` of
`eidangservices.utils.sncl`).  Times are kept as their textual tokens;
none of the embedded operations inspects them. -/
structure StreamEpoch where
  stream : SnclStream
  starttime : String
  endtime : String
deriving DecidableEq, Repr

/-- A route: one endpoint URL bound to a list of stream epochs
(`eidangservices.utils.Route`). -/
structure Route where
  url : String
  streams : List StreamEpoch
deriving DecidableEq, Repr

/-- Python `str.strip()` on the character list: drop leading and trailing
whitespace. -/
def stripChars (l : List Char) : List Char :=
  ((l.dropWhile Char.isWhitespace).reverse.dropWhile Char.isWhitespace).reverse

/-- Python `str.strip()`. -/
def pyStrip (s : String) : String := String.mk (stripChars s.data)

/-- Whitespace tokenizer (Python `str.split()` semantics on spaces):
`acc` holds the characters of the token being read, in reverse. -/
def tokensAux : List Char → List Char → List String
  | [], acc => if acc = [] then [] else [String.mk acc.reverse]
  | c :: cs, acc =>
    if c = ' ' then
      if acc = [] then tokensAux cs [] else String.mk acc.reverse :: tokensAux cs []
    else tokensAux cs (c :: acc)

/-- The space-separated tokens of a string. -/
def tokens (s : String) : List String := tokensAux s.data []

/-- Modelled from the spec: `StreamEpoch.from_snclline` (module
`eidangservices.utils.sncl`, absent from the sources) parses a line
`NET STA LOC CHA START END`; the end time defaults to the given request
default endtime when missing.  Malformed lines (spec: `BadSelector`) are
outside the claims and map to a degenerate epoch carrying the raw line. -/
def from_snclline (line : String) (default_endtime : String) : StreamEpoch :=
  match tokens (pyStrip line) with
  | [n, s, l, c, st, en] => ⟨⟨n, s, l, c⟩, st, en⟩
  | [n, s, l, c, st] => ⟨⟨n, s, l, c⟩, st, default_endtime⟩
  | _ => ⟨⟨pyStrip line, "", "", ""⟩, "", default_endtime⟩

/-- The routing-response parsing loop of `RequestProcessor._route`
(process.py lines 180-202).  `input` is the list of lines still to be
produced by `fd.readline()`; at end of input `readline` keeps returning
the empty string.  `urlline = ""` models both the Python `None` and the
empty string (both falsy, and both only tested for truthiness or used as
the stored URL).  `fuel` bounds the number of `while True` iterations;
`none` means the loop is still running after `fuel` iterations. -/
def routeLoop (default_endtime : String) :
    Nat → List String → String → List StreamEpoch → List Route → Option (List Route)
  | 0, _, _, _, _ => none
  | fuel + 1, input, urlline, epochs, table =>
    let line := match input with | [] => "" | l :: _ => l
    let rest := match input with | [] => ([] : List String) | _ :: ls => ls
    if urlline = "" then
      routeLoop default_endtime fuel rest (pyStrip line) epochs table
    else if pyStrip line = "" then
      let table' := if epochs = [] then table else table ++ [⟨urlline, epochs⟩]
      if line = "" then some table'
      else routeLoop default_endtime fuel rest "" [] table'
    else
      routeLoop default_endtime fuel rest urlline
        (epochs ++ [from_snclline line default_endtime]) table

/-- Outcome of the HTTP exchange with the routing service: a response
with a status code and a body (as the list of its lines), or a transport
level failure. -/
inductive HttpOutcome where
  | response (status_code : Nat) (body : List String)
  | networkError
deriving DecidableEq, Repr

/-- The two exception kinds of the request layer used by `_route`:
`NoContent` and `RequestsError`. -/
inductive RequestFailure where
  | noContent
  | requestsError
deriving DecidableEq, Repr

/-- Modelled from the spec: `binary_request` (imported by process.py from
the request module but absent from the sources).  Section 4.C: it fails
with `NoContent` if the service returns HTTP 204 and with the transport
error (`RequestsError`, spec name `UpstreamUnavailable`) on any other
non-2xx response or network error; otherwise it yields the body. -/
def binary_request (o : HttpOutcome) : Except RequestFailure (List String) :=
  match o with
  | .networkError => .error .requestsError
  | .response s body =>
    if s = 204 then .error .noContent
    else if 200 ≤ s ∧ s < 300 then .ok body
    else .error .requestsError

/-- The two HTTP error classes `_route` maps failures to:
`NoDataError` (HTTP 204 to the client) and `InternalServerError`. -/
inductive FedError where
  | noDataError
  | internalServerError
deriving DecidableEq, Repr

/-- `RequestProcessor._route` (process.py lines 163-211): issue the
routing request, parse the reply with `routeLoop`, and translate the
request-layer failures (`NoContent` to `NoDataError`, `RequestsError` to
`InternalServerError`).  `none` means the parsing loop has not finished
within `fuel` iterations. -/
def route_of_outcome (default_endtime : String) (o : HttpOutcome) (fuel : Nat) :
    Option (Except FedError (List Route)) :=
  match binary_request o with
  | .error .noContent => some (.error .noDataError)
  | .error .requestsError => some (.error .internalServerError)
  | .ok lines => (routeLoop default_endtime fuel lines "" [] []).map Except.ok

/-- `demux_routes` (process.py lines 59-61): one single-epoch route per
(route, epoch) pair, in source order. -/
def demux_routes (routes : List Route) : List Route :=
  routes.flatMap (fun route => route.streams.map (fun se => ⟨route.url, [se]⟩))

/-- `getattr(stream, key)` for the four selector attributes. -/
def streamAttr (st : SnclStream) (key : String) : Option String :=
  if key = "network" then some st.network
  else if key = "station" then some st.station
  else if key = "location" then some st.location
  else if key = "channel" then some st.channel
  else none

/-- Python `key.split('.')`: split on the dot separator (never empty;
a dot-free string yields the singleton of itself). -/
def splitDotAux : List Char → List Char → List String
  | [], acc => [String.mk acc.reverse]
  | c :: cs, acc =>
    if c = '.' then String.mk acc.reverse :: splitDotAux cs []
    else splitDotAux cs (c :: acc)

/-- Python `key.split('.')`. -/
def splitDot (s : String) : List String := splitDotAux s.data []

/-- Python `sep.join(parts)`. -/
def joinWith (sep : String) : List String → String
  | [] => ""
  | [s] => s
  | s :: rest => s ++ sep ++ joinWith sep rest

/-- Key extraction of `group_routes_by` (process.py lines 79-92): plain
`getattr`, falling back for combined keys (`SEP = '.'` in the key) to the
dot-join of the attributes of the parts; anything else is the error the
source wraps into `RequestProcessorError`. -/
def streamKey (st : SnclStream) (key : String) : Option String :=
  match streamAttr st key with
  | some v => some v
  | none =>
    if (splitDot key).length ≥ 2 then
      ((splitDot key).mapM (streamAttr st)).map (joinWith ".")
    else none

/-- Key of a route, read from its first stream epoch
(`route.streams[0].stream`); `none` also covers the empty-streams case
(a Python `IndexError`, impossible after demultiplexing). -/
def routeKeyOf (key : String) (route : Route) : Option String :=
  match route.streams with
  | [] => none
  | se :: _ => streamKey se.stream key

/-- `retval[_key].append(route)` on a `defaultdict(list)`: append to the
bucket of `k` if present, else add a new bucket at the end (Python dicts
preserve insertion order). -/
def groupInsert (m : List (String × List Route)) (k : String) (r : Route) :
    List (String × List Route) :=
  match m with
  | [] => [(k, [r])]
  | (k', rs) :: rest =>
    if k' = k then (k', rs ++ [r]) :: rest else (k', rs) :: groupInsert rest k r

/-- Ordered-dictionary lookup. -/
def lookupA {α : Type} : List (String × α) → String → Option α
  | [], _ => none
  | (k, v) :: rest, key => if k = key then some v else lookupA rest key

/-- The accumulation loop of `group_routes_by` over the demultiplexed
routes; `.error` models the `RequestProcessorError` raised on an invalid
grouping key. -/
def groupGo (key : String) : List Route → List (String × List Route) →
    Except Unit (List (String × List Route))
  | [], acc => .ok acc
  | r :: rs, acc =>
    match routeKeyOf key r with
    | some k => groupGo key rs (groupInsert acc k r)
    | none => .error ()

/-- `group_routes_by` (process.py lines 65-96): demultiplex, then group
into an insertion-ordered dictionary. -/
def group_routes_by (routes : List Route) (key : String) :
    Except Unit (List (String × List Route)) :=
  groupGo key (demux_routes routes) []

/-- `flatten_routes` (process.py lines 100-101). -/
def flatten_routes (grouped : List (String × List Route)) : List Route :=
  grouped.flatMap (fun p => p.2)

/-- `[_routes[0]]` on a bucket; buckets built by `groupInsert` are never
empty, so the `[]` case never fires there. -/
def firstRoute : List Route → List Route
  | [] => []
  | r :: _ => [r]

/-- The `level` reduction of `StationRequestProcessor._route`
(process.py lines 445-466), applied to the routing table returned by the
base-class `_route`. -/
def station_route_reduce (level : String) (routes : List Route) :
    Except Unit (List (String × List Route)) :=
  if level = "network" then
    (group_routes_by routes "network").map
      (fun grouped => grouped.map (fun p => (p.1, firstRoute p.2)))
  else if level = "station" then
    match group_routes_by routes "network.station" with
    | .error e => .error e
    | .ok grouped => group_routes_by (grouped.flatMap (fun p => firstRoute p.2)) "network"
  else
    group_routes_by routes "network"

/-- Claim-side notion for C5: keep, in source order, only the first route
bearing each key value (`seen` is the set of key values already kept). -/
def keepFirsts (key : String) (seen : List String) : List Route → List Route
  | [] => []
  | r :: rs =>
    match routeKeyOf key r with
    | none => keepFirsts key seen rs
    | some k =>
      if k ∈ seen then keepFirsts key seen rs
      else r :: keepFirsts key (seen ++ [k]) rs

/-- Claim-side notion for C5/C6: the routes of `rs` bearing key value `k`,
in the order of `rs`. -/
def bucketOf (key k : String) (rs : List Route) : List Route :=
  rs.filter (fun r => routeKeyOf key r = some k)

/-- `RoutingRequestHandler.QUERY_PARAMS` (request.py lines 106-111). -/
def ROUTING_QUERY_PARAMS : List String :=
  ["service", "level", "minlatitude", "minlat", "maxlatitude", "maxlat",
   "minlongitude", "minlon", "maxlongitude", "maxlon"]

/-- `RoutingRequestHandler.__init__` (request.py lines 119-126): keep only
the recognised query parameters, then set `format = post` (a fresh key:
`format` is not in the recognised set, so the dict assignment appends). -/
def routing_query_params (query_params : List (String × String)) :
    List (String × String) :=
  (query_params.filter (fun p => p.1 ∈ ROUTING_QUERY_PARAMS)) ++ [("format", "post")]

/-- Python `'\n'.join`. -/
def joinLines (lines : List String) : String := joinWith "\n" lines

/-- `RequestHandlerBase.payload_post` (request.py lines 67-73) over
already-rendered stream-epoch lines (`str(se)`): the joined `key=value`
lines and the joined epoch lines, glued by the single `'\n'` of
`'{}\n{}'.format(data, ...)`. -/
def payload_post (query_params : List (String × String))
    (stream_epoch_lines : List String) : String :=
  let data := joinLines (query_params.map (fun p => p.1 ++ "=" ++ p.2))
  data ++ "\n" ++ joinLines stream_epoch_lines

/-- The POST body produced by `RoutingRequestHandler.post()`. -/
def routing_payload_post (query_params : List (String × String))
    (stream_epoch_lines : List String) : String :=
  payload_post (routing_query_params query_params) stream_epoch_lines

/-- The claim reading of the POST body (C9): `key=value` lines, then a
blank line, then the stream-epoch lines. -/
def payload_post_per_claim (query_params : List (String × String))
    (stream_epoch_lines : List String) : String :=
  joinLines ((query_params.map (fun p => p.1 ++ "=" ++ p.2)) ++ [""]
    ++ stream_epoch_lines)

/-- The part of a download-task result the processor inspects: the HTTP
status code and the payload bytes behind `result.data` (for status 200 a
spooled temp file; the claims never read the payload otherwise). -/
structure DownloadResult where
  status_code : Nat
  data : List Char
deriving DecidableEq, Repr

/-- Modelled from the spec: the `DownloadResult` length invariant of
section 3 (`task.py` is absent from the sources): `length` equals the
payload byte count for status 200 and is 0 otherwise. -/
def DownloadResult.length (r : DownloadResult) : Nat :=
  if r.status_code = 200 then r.data.length else 0

/-- A task handle in `self._results`: `readyAt` is the sweep index from
which `result.ready()` is true (readiness of a pool `AsyncResult` is
monotone), `res` is what `result.get()` returns. -/
structure AsyncResult where
  readyAt : Nat
  res : DownloadResult
deriving DecidableEq, Repr

/-- What the `_handle_413` hook of the concrete processor raises: the
base `RequestProcessor._handle_413` (line 265-266) raises
`NotImplementedError` (inherited by the station processors);
`RawRequestProcessor._handle_413` (lines 321-327) and
`WFCatalogRequestProcessor._handle_413` (lines 755-761) log and then
raise `NoDataError`. -/
inductive Hook where
  | notImplementedError
  | noDataError
deriving DecidableEq, Repr

/-- One sweep of the Phase-1 polling loop of
`RequestProcessor.streamed_response` (process.py lines 229-247):
`for idx, result in enumerate(self._results)` with `self._results.pop(idx)`
in the generic-error branch (so the element after a popped one is skipped
until the next sweep).  A 200 result sets `result_with_data`; a 413 result
invokes the hook, and only `NotImplementedError` is caught — the
`NoDataError` of the raw/wfcatalog hooks propagates (`none`). -/
def phase1ScanPass (hook : Hook) (i : Nat) :
    List AsyncResult → List Nat → Bool → Option (List AsyncResult × List Nat × Bool)
  | [], sizes, rwd => some ([], sizes, rwd)
  | t :: rest, sizes, rwd =>
    if t.readyAt ≤ i then
      if t.res.status_code = 200 then
        (phase1ScanPass hook i rest sizes true).map
          (fun p => (t :: p.1, p.2.1, p.2.2))
      else if t.res.status_code = 413 then
        match hook with
        | .notImplementedError =>
          (phase1ScanPass hook i rest sizes rwd).map
            (fun p => (t :: p.1, p.2.1, p.2.2))
        | .noDataError => none
      else
        match rest with
        | [] => some ([], sizes ++ [0], rwd)
        | u :: rest' =>
          (phase1ScanPass hook i rest' (sizes ++ [0]) rwd).map
            (fun p => (u :: p.1, p.2.1, p.2.2))
    else
      (phase1ScanPass hook i rest sizes rwd).map
        (fun p => (t :: p.1, p.2.1, p.2.2))

/-- Result of Phase 1: the streamed `Response` is built, or `NoDataError`
is raised. -/
inductive Phase1Outcome where
  | streamedResponse
  | noData
deriving DecidableEq, Repr

/-- The Phase-1 `while True` loop of `RequestProcessor.streamed_response`
(process.py lines 228-255).  `clock` lists the value of
`datetime.datetime.utcnow()` observed by each iteration, `i` is the sweep
index (readiness reference), `default_endtime` is the class attribute
`DEFAULT_ENDTIME` — evaluated once, at class-definition (import) time —
and `timeout` is `TIMEOUT_STREAMING`.  The loop breaks once a 200 was
seen, and raises `NoDataError` when no task remains or the clock exceeds
`DEFAULT_ENDTIME + timeout`; `none` means the loop is still spinning when
the schedule runs out. -/
def streamed_response_phase1 (hook : Hook) (default_endtime timeout : Nat) :
    List Nat → Nat → List AsyncResult → List Nat → Bool → Option Phase1Outcome
  | [], _, _, _, _ => none
  | now :: later, i, tasks, sizes, rwd =>
    match phase1ScanPass hook i tasks sizes rwd with
    | none => some .noData
    | some (tasks', sizes', rwd') =>
      if rwd' then some .streamedResponse
      else if tasks' = [] ∨ default_endtime + timeout < now then some .noData
      else streamed_response_phase1 hook default_endtime timeout later (i + 1)
        tasks' sizes' rwd'

/-- The three branches of the `if/elif/else` over `_result.status_code`
shared by the Phase-2 `__iter__` loops. -/
inductive IterBranch where
  | errorBranch
  | handle413
  | streamBranch
deriving DecidableEq, Repr

/-- Branch dispatch of the `__iter__` loops (process.py lines 349-361,
542-553, 654-664, 789-799): `if status != 200` comes first, then
`elif status == 413`, then the streaming `else`. -/
def iter_branch (status_code : Nat) : IterBranch :=
  if status_code ≠ 200 then .errorBranch
  else if status_code = 413 then .handle413
  else .streamBranch

/-- A chunk yielded by a processor generator, tagged by its yield site:
the variant header, a body chunk read from a payload, the wfcatalog
separator, or the variant footer. -/
inductive Emit where
  | header
  | body (chunk : List Char)
  | sep
  | footer
deriving DecidableEq, Repr

/-- The read loop of the nested `generate_chunks` of the raw and
station-XML `__iter__` (process.py lines 336-341, 529-534): read
`chunk_size` bytes until the read comes back empty.  `fuel` only makes
the recursion structural; the wrapper passes `data.length`, which the
loop never exhausts because each read consumes at least one byte. -/
def generate_chunks_go (chunk_size : Nat) : Nat → List Char → List (List Char)
  | 0, _ => []
  | fuel + 1, data =>
    if chunk_size = 0 then []
    else if data = [] then []
    else data.take chunk_size :: generate_chunks_go chunk_size fuel (data.drop chunk_size)

/-- The nested `generate_chunks` of the raw and station-XML `__iter__`. -/
def generate_chunks (chunk_size : Nat) (data : List Char) : List (List Char) :=
  generate_chunks_go chunk_size data.length data

/-- The read loop of the nested `generate_chunks` of
`WFCatalogRequestProcessor.__iter__` (process.py lines 767-780): after
`fd.seek(1)` (`rem` is the payload without its first byte) read chunks;
the read that reaches the end of the file (`fd.tell() == _size`, i.e. at
most `chunk_size` bytes were left) has its last byte stripped.  `fuel`
as in `generate_chunks_go`. -/
def generate_chunks_wf_go (chunk_size : Nat) : Nat → List Char → List (List Char)
  | 0, _ => []
  | fuel + 1, rem =>
    if chunk_size = 0 then []
    else if rem = [] then []
    else if rem.length ≤ chunk_size then [rem.dropLast]
    else rem.take chunk_size :: generate_chunks_wf_go chunk_size fuel (rem.drop chunk_size)

/-- The nested `generate_chunks` of `WFCatalogRequestProcessor.__iter__`. -/
def generate_chunks_wf (chunk_size : Nat) (rem : List Char) : List (List Char) :=
  generate_chunks_wf_go chunk_size rem.length rem

/-- One sweep of `RawRequestProcessor.__iter__` (process.py lines
343-384).  Every ready result is handled through `iter_branch` and then
popped, so the element following a handled one is skipped until the next
sweep.  In the (unreachable) 413 branch `_handle_413` raises
`NoDataError`, which `except NotImplementedError` does not catch: the
generator dies, modelled as `none`. -/
def rawScanPass (i : Nat) (tasks : List AsyncResult) (sizes : List Nat) :
    Option (List Emit × List AsyncResult × List Nat) :=
  match tasks with
  | [] => some ([], [], sizes)
  | t :: rest =>
    if t.readyAt ≤ i then
      match iter_branch t.res.status_code with
      | .errorBranch =>
        match rest with
        | [] => some ([], [], sizes ++ [0])
        | u :: rest' =>
          (rawScanPass i rest' (sizes ++ [0])).map
            (fun r => (r.1, u :: r.2.1, r.2.2))
      | .handle413 => none
      | .streamBranch =>
        let es_t := (generate_chunks 1024 t.res.data).map Emit.body
        match rest with
        | [] => some (es_t, [], sizes ++ [t.res.length])
        | u :: rest' =>
          (rawScanPass i rest' (sizes ++ [t.res.length])).map
            (fun r => (es_t ++ r.1, u :: r.2.1, r.2.2))
    else
      (rawScanPass i rest sizes).map (fun r => (r.1, t :: r.2.1, r.2.2))

/-- One sweep of `StationXMLRequestProcessor.__iter__` (process.py lines
536-579).  The header is yielded before a streamed payload whenever
`sum(self._sizes)` is still 0; `self._sizes.append(_result.length)`
happens before the payload chunks are yielded.  In the (unreachable) 413
branch the inherited `_handle_413` raises `NotImplementedError`, which is
caught and logged; the result is popped like the others. -/
def xmlScanPass (i : Nat) (tasks : List AsyncResult) (sizes : List Nat) :
    List Emit × List AsyncResult × List Nat :=
  match tasks with
  | [] => ([], [], sizes)
  | t :: rest =>
    if t.readyAt ≤ i then
      match iter_branch t.res.status_code with
      | .errorBranch =>
        match rest with
        | [] => ([], [], sizes ++ [0])
        | u :: rest' =>
          let r := xmlScanPass i rest' (sizes ++ [0])
          (r.1, u :: r.2.1, r.2.2)
      | .handle413 =>
        match rest with
        | [] => ([], [], sizes)
        | u :: rest' =>
          let r := xmlScanPass i rest' sizes
          (r.1, u :: r.2.1, r.2.2)
      | .streamBranch =>
        let hdr : List Emit := if sizes.sum = 0 then [Emit.header] else []
        let es_t := hdr ++ (generate_chunks 1024 t.res.data).map Emit.body
        match rest with
        | [] => (es_t, [], sizes ++ [t.res.length])
        | u :: rest' =>
          let r := xmlScanPass i rest' (sizes ++ [t.res.length])
          (es_t ++ r.1, u :: r.2.1, r.2.2)
    else
      let r := xmlScanPass i rest sizes
      (r.1, t :: r.2.1, r.2.2)

/-- One sweep of `WFCatalogRequestProcessor.__iter__` (process.py lines
782-835).  `kept` counts the results already swept over and kept this
sweep, so `kept + 1 + rest.length` is `len(self._results)` at the moment
the separator condition `len(self._results) > 1` is evaluated (the
current result is popped only afterwards).  The recorded size is the
byte count actually yielded for the payload (brackets stripped).  The
(unreachable) 413 branch raises `NoDataError` through `_handle_413`,
killing the generator (`none`). -/
def wfScanPass (i kept : Nat) (tasks : List AsyncResult) (sizes : List Nat) :
    Option (List Emit × List AsyncResult × List Nat) :=
  match tasks with
  | [] => some ([], [], sizes)
  | t :: rest =>
    if t.readyAt ≤ i then
      match iter_branch t.res.status_code with
      | .errorBranch =>
        match rest with
        | [] => some ([], [], sizes ++ [0])
        | u :: rest' =>
          (wfScanPass i (kept + 1) rest' (sizes ++ [0])).map
            (fun r => (r.1, u :: r.2.1, r.2.2))
      | .handle413 => none
      | .streamBranch =>
        let hdr : List Emit := if sizes.sum = 0 then [Emit.header] else []
        let chunks := generate_chunks_wf 1024 (t.res.data.drop 1)
        let size := (chunks.map List.length).sum
        let sepE : List Emit := if kept + 1 + rest.length > 1 then [Emit.sep] else []
        let es_t := hdr ++ chunks.map Emit.body ++ sepE
        match rest with
        | [] => some (es_t, [], sizes ++ [size])
        | u :: rest' =>
          (wfScanPass i (kept + 1) rest' (sizes ++ [size])).map
            (fun r => (es_t ++ r.1, u :: r.2.1, r.2.2))
    else
      (wfScanPass i (kept + 1) rest sizes).map
        (fun r => (r.1, t :: r.2.1, r.2.2))

/-- The `while True` loop of `StationXMLRequestProcessor.__iter__`: sweep
until `self._results` is empty, then yield the footer (unconditionally).
`fuel` bounds the sweeps; `none` means the loop is still spinning. -/
def xmlIterLoop (fuel i : Nat) (tasks : List AsyncResult) (sizes : List Nat) :
    Option (List Emit × List Nat) :=
  match fuel with
  | 0 => none
  | fuel + 1 =>
    let r := xmlScanPass i tasks sizes
    if r.2.1 = [] then some (r.1 ++ [Emit.footer], r.2.2)
    else
      match xmlIterLoop fuel (i + 1) r.2.1 r.2.2 with
      | none => none
      | some (es, szs) => some (r.1 ++ es, szs)

/-- The `while True` loop of `WFCatalogRequestProcessor.__iter__`: sweep
until `self._results` is empty, then yield `JSON_LIST_END`
(unconditionally). -/
def wfIterLoop (fuel i : Nat) (tasks : List AsyncResult) (sizes : List Nat) :
    Option (List Emit × List Nat) :=
  match fuel with
  | 0 => none
  | fuel + 1 =>
    match wfScanPass i 0 tasks sizes with
    | none => none
    | some (es1, tasks', sizes') =>
      if tasks' = [] then some (es1 ++ [Emit.footer], sizes')
      else
        match wfIterLoop fuel (i + 1) tasks' sizes' with
        | none => none
        | some (es, szs) => some (es1 ++ es, szs)

/-- Concrete bytes of the wfcatalog response: `JSON_LIST_START`,
`JSON_LIST_SEP` and `JSON_LIST_END` for the tagged yields. -/
def wfRender : List Emit → List Char
  | [] => []
  | .header :: rest => '[' :: wfRender rest
  | .body l :: rest => l ++ wfRender rest
  | .sep :: rest => ',' :: wfRender rest
  | .footer :: rest => ']' :: wfRender rest

/-- Whether an emission trace contains a nonempty body chunk. -/
def anyRealBody (es : List Emit) : Bool :=
  es.any (fun e => match e with | .body l => !l.isEmpty | _ => false)

/-- `noHeaderAfterBody es seenBody = true` iff, scanning `es` left to
right starting with `seenBody` recording whether a nonempty body chunk
was already seen, no header ever occurs after a nonempty body chunk. -/
def noHeaderAfterBody : List Emit → Bool → Bool
  | [], _ => true
  | .header :: rest, seenBody => !seenBody && noHeaderAfterBody rest seenBody
  | .body l :: rest, seenBody => noHeaderAfterBody rest (seenBody || !l.isEmpty)
  | .sep :: rest, seenBody => noHeaderAfterBody rest seenBody
  | .footer :: rest, seenBody => noHeaderAfterBody rest seenBody

/-- The lines yielded by Python text-mode `for line in fd` over the file
content: maximal chunks ending with a newline, plus the trailing partial
line when nonempty.  `acc` holds the characters of the line being read,
in reverse. -/
def file_lines : List Char → List Char → List (List Char)
  | [], acc => if acc = [] then [] else [acc.reverse]
  | c :: cs, acc =>
    if c = '\n' then (acc.reverse ++ ['\n']) :: file_lines cs []
    else file_lines cs (c :: acc)

/-- The header yields of `StationTextRequestProcessor.__iter__`
(process.py lines 667-674): one of `HEADER_NETWORK`, `HEADER_STATION`,
`HEADER_CHANNEL` followed by a newline for the three recognised levels,
nothing for any other level.  Only the yield site is tagged; the literal
text varies with the level. -/
def text_header_emits (level : String) : List Emit :=
  if level = "network" then [Emit.header]
  else if level = "station" then [Emit.header]
  else if level = "channel" then [Emit.header]
  else []

/-- One sweep of `StationTextRequestProcessor.__iter__` (process.py
lines 644-707).  Structure as in the station-XML sweep: every ready
result is dispatched through `iter_branch` and then popped (skipping the
element that shifts into its slot until the next sweep); the header is
yielded, per level, whenever `sum(self._sizes)` is still 0;
`self._sizes.append(_result.length)` precedes the line-by-line yield of
the payload.  The (unreachable) 413 branch uses the inherited
`_handle_413`, whose `NotImplementedError` is caught and logged. -/
def textScanPass (level : String) (i : Nat) (tasks : List AsyncResult)
    (sizes : List Nat) : List Emit × List AsyncResult × List Nat :=
  match tasks with
  | [] => ([], [], sizes)
  | t :: rest =>
    if t.readyAt ≤ i then
      match iter_branch t.res.status_code with
      | .errorBranch =>
        match rest with
        | [] => ([], [], sizes ++ [0])
        | u :: rest' =>
          let r := textScanPass level i rest' (sizes ++ [0])
          (r.1, u :: r.2.1, r.2.2)
      | .handle413 =>
        match rest with
        | [] => ([], [], sizes)
        | u :: rest' =>
          let r := textScanPass level i rest' sizes
          (r.1, u :: r.2.1, r.2.2)
      | .streamBranch =>
        let hdr : List Emit :=
          if sizes.sum = 0 then text_header_emits level else []
        let es_t := hdr ++ (file_lines t.res.data []).map Emit.body
        match rest with
        | [] => (es_t, [], sizes ++ [t.res.length])
        | u :: rest' =>
          let r := textScanPass level i rest' (sizes ++ [t.res.length])
          (es_t ++ r.1, u :: r.2.1, r.2.2)
    else
      let r := textScanPass level i rest sizes
      (r.1, t :: r.2.1, r.2.2)

/-- The `while True` loop of `StationTextRequestProcessor.__iter__`:
sweep until `self._results` is empty; nothing is yielded after the loop
(the station-text variant has no footer). -/
def textIterLoop (level : String) (fuel i : Nat) (tasks : List AsyncResult)
    (sizes : List Nat) : Option (List Emit × List Nat) :=
  match fuel with
  | 0 => none
  | fuel + 1 =>
    let r := textScanPass level i tasks sizes
    if r.2.1 = [] then some (r.1, r.2.2)
    else
      match textIterLoop level fuel (i + 1) r.2.1 r.2.2 with
      | none => none
      | some (es, szs) => some (r.1 ++ es, szs)

/-! ## Helper lemmas -/

/-- Once the routing parser reaches end of input while `urlline` is falsy,
it loops forever: `readline` keeps returning `""`, which is itself falsy,
so the first branch keeps re-assigning `urlline = ''.strip()`. -/
theorem routeLoop_nil_input (d : String) :
    ∀ (fuel : Nat) (eps : List StreamEpoch) (tab : List Route),
      routeLoop d fuel [] "" eps tab = none := by
  intro fuel
  induction fuel with
  | zero => intro eps tab; rfl
  | succ n ih => intro eps tab; exact ih eps tab

theorem joinWith_cons (sep s : String) (rest : List String) (h : rest ≠ []) :
    joinWith sep (s :: rest) = s ++ sep ++ joinWith sep rest := by
  cases rest with
  | nil => exact absurd rfl h
  | cons a as => rfl

theorem joinWith_append (sep : String) (a b : List String)
    (ha : a ≠ []) (hb : b ≠ []) :
    joinWith sep (a ++ b) = joinWith sep a ++ sep ++ joinWith sep b := by
  induction a with
  | nil => exact absurd rfl ha
  | cons s a' ih =>
    cases a' with
    | nil =>
      rw [List.singleton_append, joinWith_cons sep s b hb]
      rfl
    | cons s2 a'' =>
      rw [List.cons_append, joinWith_cons sep s ((s2 :: a'') ++ b) (by simp),
        ih (by simp), joinWith_cons sep s (s2 :: a'') (by simp)]
      simp only [String.append_assoc]

/-! ## Claim C1 -/

/-- C1: refuted as stated — the routing-response parser does NOT
terminate on a finite body whose last block is closed by a blank line
followed by end-of-input.  After the blank line closes the block,
`urlline` is reset to `None`; every subsequent `readline` returns the
falsy `''`, which the first branch keeps assigning to `urlline`
(`''.strip()` is again falsy), so the `break` is never reached: for the
concrete body `"A\n" "N S L C T1 T2\n" "\n"` the loop is still running
after any number of iterations. -/
theorem c1_route_parser_diverges_on_blank_terminated_body (fuel : Nat) :
    routeLoop "E" fuel ["A\n", "N S L C T1 T2\n", "\n"] "" [] [] = none := by
  match fuel with
  | 0 => rfl
  | 1 => rfl
  | 2 => rfl
  | (n + 3) =>
    show routeLoop "E" n [] "" [] _ = none
    exact routeLoop_nil_input "E" n [] _

/-! ## Claim C2 -/

/-- C2: refuted as stated — Phase 1 checks the wall clock against
`DEFAULT_ENDTIME + TIMEOUT_STREAMING`, where `DEFAULT_ENDTIME` is a class
attribute evaluated once at import time, not against the start time of
the current request.  Concretely: import at 0, timeout 10, a request
whose processing starts at 95 with one still-pending task and a first
sweep at wall clock 100 raises `NoDataError` immediately, although the
clock has not yet exceeded the request start plus the timeout
(100 ≤ 95 + 10). -/
theorem c2_phase1_times_out_against_import_time :
    streamed_response_phase1 .notImplementedError 0 10 [100] 0
        [⟨1000, ⟨200, []⟩⟩] [] false = some .noData
      ∧ (100 : Nat) ≤ 95 + 10 :=
  ⟨rfl, by norm_num⟩

/-! ## Claim C3 -/

/-- C3, counterexample: with the raw/wfcatalog `_handle_413` hook (which
raises `NoDataError`, not `NotImplementedError`), a ready 413 result
makes `streamed_response` raise `NoDataError` even though another task is
ready with status 200 and a nonempty payload: the request as a whole does
NOT continue. -/
theorem c3_counterexample_413_aborts_request :
    streamed_response_phase1 .noDataError 0 10 [0] 0
        [⟨0, ⟨413, []⟩⟩, ⟨0, ⟨200, ['x']⟩⟩] [] false = some .noData
      ∧ Phase1Outcome.noData ≠ Phase1Outcome.streamedResponse :=
  ⟨rfl, by decide⟩

/-- Helper for C3: under the base-class hook (`NotImplementedError`,
caught and only logged) a sweep over ready 413 results changes nothing:
no task is dropped, no size is recorded. -/
theorem phase1ScanPass_413_notImplemented (i : Nat) :
    ∀ (tasks : List AsyncResult) (sizes : List Nat) (rwd : Bool),
      (∀ t ∈ tasks, t.res.status_code = 413 ∧ t.readyAt ≤ i) →
      phase1ScanPass .notImplementedError i tasks sizes rwd
        = some (tasks, sizes, rwd) := by
  intro tasks
  induction tasks with
  | nil => intro sizes rwd _; rfl
  | cons t rest ih =>
    intro sizes rwd h
    have ht := h t (List.mem_cons_self t rest)
    have hrest : ∀ u ∈ rest, u.res.status_code = 413 ∧ u.readyAt ≤ i :=
      fun u hu => h u (List.mem_cons_of_mem t hu)
    rw [phase1ScanPass.eq_def]
    dsimp only
    rw [if_pos ht.2, ht.1]
    norm_num
    simp [ih sizes rwd hrest]

/-- C3, amended: on a 413 task result `streamed_response` invokes the
variant hook `_handle_413` and catches only `NotImplementedError`.  (i)
Under the base-class hook (raising `NotImplementedError`) the 413 result
is logged but NOT dropped: the sweep leaves the outstanding tasks, the
sizes and the data flag unchanged, so the request continues with the 413
task still outstanding.  (ii) Under the raw/wfcatalog hook (which raises
`NoDataError`) the sweep aborts, and (iii) the enclosing loop turns that
into `NoDataError` for the whole request. -/
theorem c3_amended_413_handling (i : Nat) :
    (∀ (tasks : List AsyncResult) (sizes : List Nat) (rwd : Bool),
      (∀ t ∈ tasks, t.res.status_code = 413 ∧ t.readyAt ≤ i) →
      phase1ScanPass .notImplementedError i tasks sizes rwd
        = some (tasks, sizes, rwd)) ∧
    (∀ (t : AsyncResult) (rest : List AsyncResult) (sizes : List Nat)
        (rwd : Bool), t.readyAt ≤ i → t.res.status_code = 413 →
      phase1ScanPass .noDataError i (t :: rest) sizes rwd = none) ∧
    (∀ (dflt tmo now : Nat) (later : List Nat) (tasks : List AsyncResult)
        (sizes : List Nat) (rwd : Bool),
      phase1ScanPass .noDataError i tasks sizes rwd = none →
      streamed_response_phase1 .noDataError dflt tmo (now :: later) i
        tasks sizes rwd = some .noData) := by
  refine ⟨phase1ScanPass_413_notImplemented i, ?_, ?_⟩
  · intro t rest sizes rwd hready h413
    rw [phase1ScanPass.eq_def]
    dsimp only
    rw [if_pos hready, h413]
    norm_num
  · intro dflt tmo now later tasks sizes rwd hnone
    rw [streamed_response_phase1, hnone]

/-- C3, witness for the amended theorem at concrete inputs. -/
theorem c3_amended_413_handling_witness :
    phase1ScanPass .notImplementedError 0 [⟨0, ⟨413, []⟩⟩] [] false
        = some ([⟨0, ⟨413, []⟩⟩], [], false)
      ∧ phase1ScanPass .noDataError 0 [⟨0, ⟨413, []⟩⟩, ⟨0, ⟨200, ['x']⟩⟩] []
          false = none
      ∧ streamed_response_phase1 .noDataError 0 10 [0] 0 [⟨0, ⟨413, []⟩⟩] []
          false = some .noData := by
  refine ⟨(c3_amended_413_handling 0).1 _ _ _ ?_,
    (c3_amended_413_handling 0).2.1 _ _ _ _ (le_refl 0) rfl,
    (c3_amended_413_handling 0).2.2 0 10 0 [] _ _ _
      ((c3_amended_413_handling 0).2.1 _ _ _ _ (le_refl 0) rfl)⟩
  intro t ht
  simp only [List.mem_singleton] at ht
  subst ht
  exact ⟨rfl, le_refl 0⟩

/-! ## Claim C7 -/

/-- C7: `_route` raises `NoDataError` exactly when the routing service
answers 204 (`NoContent`), raises `InternalServerError` on any other
non-2xx response and on network errors, and on a 200 response returns the
parsed routing table (whenever the parsing loop terminates). -/
theorem c7_route_error_mapping (default_endtime : String) (body : List String)
    (s fuel : Nat) (t : List Route) :
    route_of_outcome default_endtime (.response 204 body) fuel
        = some (.error .noDataError)
      ∧ (¬(200 ≤ s ∧ s < 300) → s ≠ 204 →
          route_of_outcome default_endtime (.response s body) fuel
            = some (.error .internalServerError))
      ∧ route_of_outcome default_endtime .networkError fuel
          = some (.error .internalServerError)
      ∧ (routeLoop default_endtime fuel body "" [] [] = some t →
          route_of_outcome default_endtime (.response 200 body) fuel
            = some (.ok t))
      ∧ (∀ o : HttpOutcome,
          route_of_outcome default_endtime o fuel = some (.error .noDataError) →
          ∃ b, o = .response 204 b) := by
  refine ⟨rfl, ?_, rfl, ?_, ?_⟩
  · intro h2 h204
    simp [route_of_outcome, binary_request, h204, h2]
  · intro hp
    simp [route_of_outcome, binary_request, hp]
  · intro o ho
    match o with
    | .networkError => simp [route_of_outcome, binary_request] at ho
    | .response s' b =>
      by_cases h4 : s' = 204
      · exact ⟨b, by rw [h4]⟩
      · exfalso
        by_cases h2 : 200 ≤ s' ∧ s' < 300
        · simp only [route_of_outcome, binary_request, if_neg h4, if_pos h2] at ho
          cases hl : routeLoop default_endtime fuel b "" [] [] <;>
            simp [hl] at ho
        · simp [route_of_outcome, binary_request, h4, h2] at ho

/-- C7, witness at concrete inputs (the 200 case uses a body without a
terminal blank line, on which the parser terminates). -/
theorem c7_route_error_mapping_witness :
    route_of_outcome "E" (.response 204 ["A\n"]) 4 = some (.error .noDataError)
      ∧ route_of_outcome "E" (.response 500 ["A\n"]) 4
          = some (.error .internalServerError)
      ∧ route_of_outcome "E" .networkError 4 = some (.error .internalServerError)
      ∧ route_of_outcome "E" (.response 200 ["A\n", "N S L C T1 T2\n"]) 4
          = some (.ok [⟨"A", [⟨⟨"N", "S", "L", "C"⟩, "T1", "T2"⟩]⟩])
      ∧ (∃ b, HttpOutcome.response 204 ["A\n"] = HttpOutcome.response 204 b) := by
  have h := c7_route_error_mapping "E" ["A\n", "N S L C T1 T2\n"] 500 4
    [⟨"A", [⟨⟨"N", "S", "L", "C"⟩, "T1", "T2"⟩]⟩]
  exact ⟨(c7_route_error_mapping "E" ["A\n"] 500 4 []).1,
    (c7_route_error_mapping "E" ["A\n"] 500 4 []).2.1 (by decide) (by decide),
    h.2.2.1,
    h.2.2.2.1 rfl,
    (c7_route_error_mapping "E" ["A\n"] 500 4 []).2.2.2.2
      (.response 204 ["A\n"]) rfl⟩

/-! ## Claim C8 -/

/-- C8: refuted as stated (code bug) — the separator condition
`len(self._results) > 1` counts every still-outstanding task, including
ones that will fail, and is evaluated before the current result is
popped.  For the spec scenario (three tasks, the second failing with
500, payloads `"[ab]"` and `"[cd]"`), the emitted response is
`"[ab,cd,]"` — a comma also follows the last streamed payload — instead
of the claimed `"[ab,cd]"`.  The recorded sizes are the stripped byte
counts for the 200 payloads and 0 for the failed task, in completion
order. -/
theorem c8_wfcatalog_emits_trailing_comma :
    (wfIterLoop 2 0 [⟨0, ⟨200, "[ab]".toList⟩⟩, ⟨0, ⟨500, []⟩⟩,
        ⟨0, ⟨200, "[cd]".toList⟩⟩] []).map (fun p => (wfRender p.1, p.2))
      = some ("[ab,cd,]".toList, [2, 2, 0]) := rfl

/-! ## Claim C9 -/

/-- C9, counterexample: the POST body of the routing handler does NOT
contain a blank line between the `key=value` lines and the stream-epoch
lines — `'{}\n{}'.format(data, ...)` glues them with a single newline. -/
theorem c9_counterexample_no_blank_line :
    routing_payload_post [("service", "station")] ["N S -- C T1 T2"]
      ≠ payload_post_per_claim
          (routing_query_params [("service", "station")]) ["N S -- C T1 T2"] := by
  decide

/-- C9, amended: `RoutingRequestHandler` keeps exactly the recognised
query parameters (in order) and appends `format=post`; its POST body is
the `key=value` lines followed DIRECTLY by one stream-epoch line per
epoch, all separated by single newlines (no blank line in between). -/
theorem c9_amended_routing_handler (query_params : List (String × String))
    (lines : List String) (hl : lines ≠ []) :
    routing_payload_post query_params lines
        = joinWith "\n"
            (((routing_query_params query_params).map
              (fun p => p.1 ++ "=" ++ p.2)) ++ lines)
      ∧ (∀ p : String × String,
          p ∈ routing_query_params query_params ↔
            ((p ∈ query_params ∧ p.1 ∈ ROUTING_QUERY_PARAMS)
              ∨ p = ("format", "post"))) := by
  constructor
  · have hkv : ((routing_query_params query_params).map
        (fun p => p.1 ++ "=" ++ p.2)) ≠ [] := by
      simp [routing_query_params]
    rw [joinWith_append "\n" _ lines hkv hl]
    rfl
  · intro p
    simp [routing_query_params, List.mem_filter, List.mem_append]

/-- C9, witness for the amended theorem at concrete inputs. -/
theorem c9_amended_routing_handler_witness :
    routing_payload_post [("service", "station"), ("junk", "x")]
        ["N S -- C T1 T2"]
      = joinWith "\n"
          (((routing_query_params [("service", "station"), ("junk", "x")]).map
            (fun p => p.1 ++ "=" ++ p.2)) ++ ["N S -- C T1 T2"]) ∧
    (("format", "post")
        ∈ routing_query_params [("service", "station"), ("junk", "x")] ↔
      ((("format", "post") ∈ [("service", "station"), ("junk", "x")]
          ∧ "format" ∈ ROUTING_QUERY_PARAMS)
        ∨ (("format", "post") : String × String) = ("format", "post"))) :=
  ⟨(c9_amended_routing_handler _ _ (by decide)).1,
    (c9_amended_routing_handler [("service", "station"), ("junk", "x")]
      ["N S -- C T1 T2"] (by decide)).2 ("format", "post")⟩

/-! ## Claim C10 -/

/-- C10: in the Phase-2 loops the `if status != 200` branch fires for
every non-200 status, so `iter_branch` never selects the dedicated
`elif status == 413` branch — for 413 it selects the generic error
branch — and processing a ready 413 result in the raw or wfcatalog sweep
is identical to processing a generic 500 failure: log, record size 0,
pop the task, emit nothing for it. -/
theorem c10_413_branch_unreachable :
    (∀ s : Nat, iter_branch s ≠ .handle413)
      ∧ iter_branch 413 = .errorBranch
      ∧ (∀ (i : Nat) (t : AsyncResult) (rest : List AsyncResult)
          (sizes : List Nat), t.readyAt ≤ i → t.res.status_code = 413 →
            rawScanPass i (t :: rest) sizes
                = rawScanPass i (⟨t.readyAt, 500, t.res.data⟩ :: rest) sizes
              ∧ wfScanPass i 0 (t :: rest) sizes
                = wfScanPass i 0 (⟨t.readyAt, 500, t.res.data⟩ :: rest) sizes) := by
  refine ⟨?_, rfl, ?_⟩
  · intro s
    by_cases h : s = 200
    · subst h; decide
    · simp [iter_branch, h]
  · intro i t rest sizes hready h413
    have hb : iter_branch t.res.status_code = .errorBranch := by rw [h413]; rfl
    have hb2 : iter_branch 500 = IterBranch.errorBranch := rfl
    constructor
    · cases rest with
      | nil => simp [rawScanPass, hready, hb, hb2]
      | cons u rest' => simp [rawScanPass, hready, hb, hb2]
    · cases rest with
      | nil => simp [wfScanPass, hready, hb, hb2]
      | cons u rest' => simp [wfScanPass, hready, hb, hb2]

/-- C10, witness at concrete inputs. -/
theorem c10_413_branch_unreachable_witness :
    iter_branch 413 ≠ IterBranch.handle413
      ∧ rawScanPass 0 [⟨0, ⟨413, ['x']⟩⟩] []
          = rawScanPass 0 [⟨0, ⟨500, ['x']⟩⟩] []
      ∧ wfScanPass 0 0 [⟨0, ⟨413, ['x']⟩⟩] []
          = wfScanPass 0 0 [⟨0, ⟨500, ['x']⟩⟩] [] :=
  ⟨c10_413_branch_unreachable.1 413,
    (c10_413_branch_unreachable.2.2 0 ⟨0, ⟨413, ['x']⟩⟩ [] [] (le_refl 0) rfl).1,
    (c10_413_branch_unreachable.2.2 0 ⟨0, ⟨413, ['x']⟩⟩ [] [] (le_refl 0) rfl).2⟩

/-! ## Grouping lemmas (for C5 and C6) -/

theorem lookupA_groupInsert_self (m : List (String × List Route)) (k : String)
    (r : Route) :
    lookupA (groupInsert m k r) k = some (((lookupA m k).getD []) ++ [r]) := by
  induction m with
  | nil => simp [groupInsert, lookupA]
  | cons p rest ih =>
    obtain ⟨k', v⟩ := p
    by_cases hk : k' = k
    · subst hk; simp [groupInsert, lookupA]
    · simp [groupInsert, lookupA, hk, ih]

theorem lookupA_groupInsert_ne (m : List (String × List Route)) (k key : String)
    (r : Route) (h : key ≠ k) :
    lookupA (groupInsert m k r) key = lookupA m key := by
  induction m with
  | nil => simp [groupInsert, lookupA, Ne.symm h]
  | cons p rest ih =>
    obtain ⟨k', v⟩ := p
    by_cases hk : k' = k
    · subst hk
      simp [groupInsert, lookupA, Ne.symm h]
    · by_cases h2 : k' = key
      · simp [groupInsert, lookupA, hk, h2, h]
      · simp [groupInsert, lookupA, hk, h2, ih, h]

theorem groupGo_lookup (key : String) :
    ∀ (rs : List Route) (acc m : List (String × List Route)),
      groupGo key rs acc = .ok m → ∀ k,
        (lookupA m k).getD [] = (lookupA acc k).getD [] ++ bucketOf key k rs
          ∧ (lookupA m k = none ↔ lookupA acc k = none ∧ bucketOf key k rs = []) := by
  intro rs
  induction rs with
  | nil =>
    intro acc m h k
    simp only [groupGo] at h
    cases h
    simp [bucketOf]
  | cons r rs ih =>
    intro acc m h k
    rw [groupGo] at h
    cases hkr : routeKeyOf key r with
    | none => rw [hkr] at h; exact absurd h (by simp)
    | some kr =>
      rw [hkr] at h
      have hrec := ih (groupInsert acc kr r) m h k
      by_cases hk : k = kr
      · subst hk
        refine ⟨?_, ?_⟩
        · rw [hrec.1, lookupA_groupInsert_self]
          simp [bucketOf, List.filter_cons, hkr]
        · rw [hrec.2, lookupA_groupInsert_self]
          simp [bucketOf, List.filter_cons, hkr]
      · refine ⟨?_, ?_⟩
        · rw [hrec.1, lookupA_groupInsert_ne _ _ _ _ hk]
          simp [bucketOf, List.filter_cons, hkr, Ne.symm hk]
        · rw [hrec.2, lookupA_groupInsert_ne _ _ _ _ hk]
          simp [bucketOf, List.filter_cons, hkr, Ne.symm hk]

/-- The bucket of each key value in a grouping is exactly the
(order-preserving) sublist of the demultiplexed routes bearing that key. -/
theorem group_routes_by_bucket (routes : List Route) (key k : String)
    (m : List (String × List Route)) (h : group_routes_by routes key = .ok m) :
    lookupA m k
      = if bucketOf key k (demux_routes routes) = [] then none
        else some (bucketOf key k (demux_routes routes)) := by
  have hg := groupGo_lookup key (demux_routes routes) [] m h k
  by_cases hb : bucketOf key k (demux_routes routes) = []
  · rw [if_pos hb]
    exact hg.2.mpr ⟨rfl, hb⟩
  · rw [if_neg hb]
    cases hl : lookupA m k with
    | none => exact absurd (hg.2.mp hl).2 hb
    | some v =>
      have hv := hg.1
      rw [hl] at hv
      simp only [Option.getD_some, lookupA, List.nil_append] at hv
      rw [hv]
      simp

theorem lookupA_map_val {α β : Type} (f : α → β) (m : List (String × α))
    (k : String) :
    lookupA (m.map (fun p => (p.1, f p.2))) k = (lookupA m k).map f := by
  induction m with
  | nil => simp [lookupA]
  | cons p rest ih =>
    by_cases hk : p.1 = k
    · simp [lookupA, hk]
    · simp [lookupA, hk, ih]

theorem firstRoute_append (v : List Route) (r : Route) (hv : v ≠ []) :
    firstRoute (v ++ [r]) = firstRoute v := by
  cases v with
  | nil => exact absurd rfl hv
  | cons a as => rfl

theorem groupInsert_buckets_ne_nil (m : List (String × List Route))
    (k : String) (r : Route) (h : ∀ p ∈ m, p.2 ≠ []) :
    ∀ p ∈ groupInsert m k r, p.2 ≠ [] := by
  induction m with
  | nil =>
    intro p hp
    have hpe : p = (k, [r]) := by simpa [groupInsert] using hp
    subst hpe
    simp
  | cons q rest ih =>
    obtain ⟨k', v⟩ := q
    intro p hp
    by_cases hk : k' = k
    · subst hk
      rw [groupInsert, if_pos rfl] at hp
      rcases List.mem_cons.mp hp with hpe | hpm
      · subst hpe; simp
      · exact h p (List.mem_cons_of_mem _ hpm)
    · rw [groupInsert, if_neg hk] at hp
      rcases List.mem_cons.mp hp with hpe | hpm
      · subst hpe; exact h (k', v) (List.mem_cons_self _ _)
      · exact ih (fun q hq => h q (List.mem_cons_of_mem _ hq)) p hpm

theorem keys_groupInsert (m : List (String × List Route)) (k : String)
    (r : Route) :
    (groupInsert m k r).map Prod.fst
      = if k ∈ m.map Prod.fst then m.map Prod.fst
        else m.map Prod.fst ++ [k] := by
  induction m with
  | nil => simp [groupInsert]
  | cons q rest ih =>
    obtain ⟨k', v⟩ := q
    by_cases hk : k' = k
    · subst hk
      simp [groupInsert]
    · simp only [groupInsert, if_neg hk, List.map_cons, ih]
      by_cases hm : k ∈ rest.map Prod.fst
      · simp [hm, Ne.symm hk]
      · simp [hm, Ne.symm hk]

theorem firsts_groupInsert (m : List (String × List Route)) (k : String)
    (r : Route) (h : ∀ p ∈ m, p.2 ≠ []) :
    (groupInsert m k r).flatMap (fun p => firstRoute p.2)
      = if k ∈ m.map Prod.fst
        then m.flatMap (fun p => firstRoute p.2)
        else m.flatMap (fun p => firstRoute p.2) ++ [r] := by
  induction m with
  | nil => simp [groupInsert, firstRoute]
  | cons q rest ih =>
    obtain ⟨k', v⟩ := q
    by_cases hk : k' = k
    · subst hk
      have hv : v ≠ [] := h (k', v) (List.mem_cons_self _ _)
      simp [groupInsert, firstRoute_append v r hv]
    · have hrest := ih (fun q hq => h q (List.mem_cons_of_mem _ hq))
      simp only [groupInsert, if_neg hk, List.flatMap_cons, List.map_cons, hrest]
      by_cases hm : k ∈ rest.map Prod.fst
      · simp [hm, Ne.symm hk]
      · simp [hm, Ne.symm hk]

/-- The heads of the buckets of a grouping, in dictionary order, are
exactly the first occurrences of each key value, in source order. -/
theorem groupGo_firsts (key : String) :
    ∀ (rs : List Route) (acc m : List (String × List Route)),
      (∀ p ∈ acc, p.2 ≠ []) →
      groupGo key rs acc = .ok m →
      m.flatMap (fun p => firstRoute p.2)
        = acc.flatMap (fun p => firstRoute p.2)
          ++ keepFirsts key (acc.map Prod.fst) rs := by
  intro rs
  induction rs with
  | nil =>
    intro acc m _ h
    simp only [groupGo] at h
    cases h
    simp [keepFirsts]
  | cons r rs ih =>
    intro acc m hne h
    rw [groupGo] at h
    cases hkr : routeKeyOf key r with
    | none => rw [hkr] at h; exact absurd h (by simp)
    | some kr =>
      rw [hkr] at h
      have hne' := groupInsert_buckets_ne_nil acc kr r hne
      have hrec := ih (groupInsert acc kr r) m hne' h
      rw [keepFirsts, hkr]
      dsimp only
      by_cases hmem : kr ∈ acc.map Prod.fst
      · rw [if_pos hmem]
        rw [hrec, firsts_groupInsert acc kr r hne, if_pos hmem,
          keys_groupInsert, if_pos hmem]
      · rw [if_neg hmem]
        rw [hrec, firsts_groupInsert acc kr r hne, if_neg hmem,
          keys_groupInsert, if_neg hmem]
        simp

/-! ## Claim C6 -/

/-- C6: `demux_routes` yields exactly one single-epoch route per
(route, epoch) pair of `R`, in source order (it IS the order-preserving
flat map of the epochs, every produced route carries exactly one epoch,
and demultiplexing is idempotent, so grouping `R` and grouping
`demux R` agree); and for every grouping key on which `group_routes_by`
succeeds, the bucket of each key value is exactly the sublist of
`demux R` bearing that key, in the same relative order. -/
theorem c6_demux_and_group_stability (R : List Route) :
    demux_routes R
        = R.flatMap (fun route => route.streams.map (fun se => ⟨route.url, [se]⟩))
      ∧ (∀ r ∈ demux_routes R, r.streams.length = 1)
      ∧ demux_routes (demux_routes R) = demux_routes R
      ∧ (∀ key, group_routes_by (demux_routes R) key = group_routes_by R key)
      ∧ (∀ (key k : String) (m : List (String × List Route)),
          group_routes_by R key = .ok m →
          lookupA m k
            = if bucketOf key k (demux_routes R) = [] then none
              else some (bucketOf key k (demux_routes R))) := by
  have hshape : ∀ r ∈ demux_routes R, ∃ u se, r = ⟨u, [se]⟩ := by
    intro r hr
    simp only [demux_routes, List.mem_flatMap, List.mem_map] at hr
    obtain ⟨route, _, se, _, rfl⟩ := hr
    exact ⟨route.url, se, rfl⟩
  have hsingles : ∀ (l : List Route), (∀ r ∈ l, ∃ u se, r = ⟨u, [se]⟩) →
      demux_routes l = l := by
    intro l
    induction l with
    | nil => intro _; rfl
    | cons r rest ih =>
      intro hl
      obtain ⟨u, se, rfl⟩ := hl r (List.mem_cons_self _ _)
      have hrest := ih (fun q hq => hl q (List.mem_cons_of_mem _ hq))
      simp only [demux_routes, List.flatMap_cons] at hrest ⊢
      simp only [List.map_cons, List.map_nil, List.singleton_append]
      rw [hrest]
  have hidem : demux_routes (demux_routes R) = demux_routes R :=
    hsingles (demux_routes R) hshape
  refine ⟨rfl, ?_, hidem, ?_, ?_⟩
  · intro r hr
    obtain ⟨u, se, rfl⟩ := hshape r hr
    rfl
  · intro key
    simp only [group_routes_by, hidem]
  · intro key k m h
    exact group_routes_by_bucket R key k m h

/-- C6, witness: the grouping of a concrete two-route table by `network`,
with its `GE` bucket. -/
theorem c6_demux_and_group_stability_witness :
    lookupA
        [("GE", [⟨"a", [⟨⟨"GE", "S1", "", ""⟩, "1", "2"⟩]⟩,
                 ⟨"b", [⟨⟨"GE", "S1", "", ""⟩, "3", "4"⟩]⟩]),
         ("NL", [⟨"a", [⟨⟨"NL", "S2", "", ""⟩, "1", "2"⟩]⟩])] "GE"
      = if bucketOf "network" "GE"
            (demux_routes [⟨"a", [⟨⟨"GE", "S1", "", ""⟩, "1", "2"⟩,
                                  ⟨⟨"NL", "S2", "", ""⟩, "1", "2"⟩]⟩,
                           ⟨"b", [⟨⟨"GE", "S1", "", ""⟩, "3", "4"⟩]⟩]) = []
        then none
        else some (bucketOf "network" "GE"
            (demux_routes [⟨"a", [⟨⟨"GE", "S1", "", ""⟩, "1", "2"⟩,
                                  ⟨⟨"NL", "S2", "", ""⟩, "1", "2"⟩]⟩,
                           ⟨"b", [⟨⟨"GE", "S1", "", ""⟩, "3", "4"⟩]⟩])) :=
  (c6_demux_and_group_stability
    [⟨"a", [⟨⟨"GE", "S1", "", ""⟩, "1", "2"⟩, ⟨⟨"NL", "S2", "", ""⟩, "1", "2"⟩]⟩,
     ⟨"b", [⟨⟨"GE", "S1", "", ""⟩, "3", "4"⟩]⟩]).2.2.2.2 "network" "GE" _ rfl

/-! ## Claim C5 -/

/-- C5: the station `level` reduction.  For `level=network` the reduced
table maps each network to the singleton of the FIRST demultiplexed route
of that network (first occurrence in routing-table order, the head of the
order-preserving bucket).  For `level=station` it keeps the first
demultiplexed route per `network.station` key, in source order
(`keepFirsts`), and regroups exactly those survivors by network.  For any
other level it is plain grouping by network with no per-group
reduction. -/
theorem c5_station_level_reduction (routes : List Route) :
    (∀ (m : List (String × List Route)),
        station_route_reduce "network" routes = .ok m →
        ∀ k, lookupA m k
          = ((bucketOf "network" k (demux_routes routes)).head?).map
              (fun r => [r]))
      ∧ (∀ g, group_routes_by routes "network.station" = .ok g →
          station_route_reduce "station" routes
            = group_routes_by
                (keepFirsts "network.station" [] (demux_routes routes))
                "network")
      ∧ (∀ level, level ≠ "network" → level ≠ "station" →
          station_route_reduce level routes = group_routes_by routes "network") := by
  refine ⟨?_, ?_, ?_⟩
  · intro m hm k
    simp only [station_route_reduce, if_pos rfl] at hm
    cases hg : group_routes_by routes "network" with
    | error e => rw [hg] at hm; exact absurd hm (by simp [Except.map])
    | ok g =>
      rw [hg] at hm
      simp only [Except.map] at hm
      cases hm
      rw [lookupA_map_val, group_routes_by_bucket routes "network" k g hg]
      by_cases hb : bucketOf "network" k (demux_routes routes) = []
      · simp [hb]
      · rw [if_neg hb]
        cases hbv : bucketOf "network" k (demux_routes routes) with
        | nil => exact absurd hbv hb
        | cons b bs => simp [firstRoute]
  · intro g hg
    have hs : station_route_reduce "station" routes
        = group_routes_by (g.flatMap (fun p => firstRoute p.2)) "network" := by
      simp [station_route_reduce, hg]
    rw [hs]
    have hfirsts := groupGo_firsts "network.station" (demux_routes routes) [] g
      (by intro p hp; simp at hp) hg
    simp only [List.flatMap_nil, List.nil_append, List.map_nil] at hfirsts
    rw [hfirsts]
  · intro level h1 h2
    simp [station_route_reduce, h1, h2]

/-- C5, witness at a concrete routing table (with a duplicated
`network.station` key across two endpoints). -/
theorem c5_station_level_reduction_witness :
    (lookupA [("GE", [⟨"a", [⟨⟨"GE", "S1", "", ""⟩, "1", "2"⟩]⟩]),
              ("NL", [⟨"a", [⟨⟨"NL", "S2", "", ""⟩, "1", "2"⟩]⟩])] "GE"
        = ((bucketOf "network" "GE"
            (demux_routes [⟨"a", [⟨⟨"GE", "S1", "", ""⟩, "1", "2"⟩,
                                  ⟨⟨"NL", "S2", "", ""⟩, "1", "2"⟩]⟩,
                           ⟨"b", [⟨⟨"GE", "S1", "", ""⟩, "3", "4"⟩]⟩])).head?).map
            (fun r => [r]))
      ∧ station_route_reduce "station"
            [⟨"a", [⟨⟨"GE", "S1", "", ""⟩, "1", "2"⟩,
                    ⟨⟨"NL", "S2", "", ""⟩, "1", "2"⟩]⟩,
             ⟨"b", [⟨⟨"GE", "S1", "", ""⟩, "3", "4"⟩]⟩]
          = group_routes_by
              (keepFirsts "network.station" []
                (demux_routes [⟨"a", [⟨⟨"GE", "S1", "", ""⟩, "1", "2"⟩,
                                      ⟨⟨"NL", "S2", "", ""⟩, "1", "2"⟩]⟩,
                               ⟨"b", [⟨⟨"GE", "S1", "", ""⟩, "3", "4"⟩]⟩]))
              "network"
      ∧ station_route_reduce "channel"
            [⟨"a", [⟨⟨"GE", "S1", "", ""⟩, "1", "2"⟩]⟩]
          = group_routes_by [⟨"a", [⟨⟨"GE", "S1", "", ""⟩, "1", "2"⟩]⟩]
              "network" :=
  ⟨(c5_station_level_reduction
      [⟨"a", [⟨⟨"GE", "S1", "", ""⟩, "1", "2"⟩, ⟨⟨"NL", "S2", "", ""⟩, "1", "2"⟩]⟩,
       ⟨"b", [⟨⟨"GE", "S1", "", ""⟩, "3", "4"⟩]⟩]).1 _ rfl "GE",
    (c5_station_level_reduction
      [⟨"a", [⟨⟨"GE", "S1", "", ""⟩, "1", "2"⟩, ⟨⟨"NL", "S2", "", ""⟩, "1", "2"⟩]⟩,
       ⟨"b", [⟨⟨"GE", "S1", "", ""⟩, "3", "4"⟩]⟩]).2.1 _ rfl,
    (c5_station_level_reduction
      [⟨"a", [⟨⟨"GE", "S1", "", ""⟩, "1", "2"⟩]⟩]).2.2 "channel"
      (by decide) (by decide)⟩

/-! ## Trace lemmas for C4 -/

theorem iter_branch_ne_handle413 (s : Nat) : iter_branch s ≠ .handle413 := by
  by_cases h : s = 200
  · subst h; decide
  · simp [iter_branch, h]

theorem anyRealBody_append (a b : List Emit) :
    anyRealBody (a ++ b) = (anyRealBody a || anyRealBody b) := by
  simp [anyRealBody, List.any_append]

theorem noHeaderAfterBody_append (a b : List Emit) (sb : Bool) :
    noHeaderAfterBody (a ++ b) sb
      = (noHeaderAfterBody a sb && noHeaderAfterBody b (sb || anyRealBody a)) := by
  induction a generalizing sb with
  | nil => simp [noHeaderAfterBody, anyRealBody]
  | cons e rest ih =>
    cases e with
    | header =>
      simp [noHeaderAfterBody, anyRealBody, ih, List.any_cons, Bool.and_assoc]
    | body l =>
      simp [noHeaderAfterBody, anyRealBody, ih, List.any_cons, Bool.or_assoc]
    | sep => simp [noHeaderAfterBody, anyRealBody, ih, List.any_cons]
    | footer => simp [noHeaderAfterBody, anyRealBody, ih, List.any_cons]

theorem noHeaderAfterBody_bodies (ls : List (List Char)) (sb : Bool) :
    noHeaderAfterBody (ls.map Emit.body) sb = true := by
  induction ls generalizing sb with
  | nil => rfl
  | cons l rest ih => simp [noHeaderAfterBody, ih]

theorem anyRealBody_chunks (data : List Char) :
    anyRealBody ((generate_chunks 1024 data).map Emit.body) = !data.isEmpty := by
  cases data with
  | nil => rfl
  | cons c cs =>
    rw [generate_chunks]
    simp only [List.length_cons, generate_chunks_go]
    norm_num
    simp [anyRealBody]

theorem iter_branch_stream (s : Nat) (h : iter_branch s = .streamBranch) :
    s = 200 := by
  by_cases hs : s = 200
  · exact hs
  · simp [iter_branch, hs] at h

theorem iter_branch_error (s : Nat) (h : iter_branch s = .errorBranch) :
    s ≠ 200 := by
  intro hs
  subst hs
  simp [iter_branch] at h

/-- Per-sweep trace invariants of the station-XML loop: a sweep never
emits the footer; no header is emitted after a nonempty body chunk (the
scan starts from the flag `sum(sizes) != 0`); that flag stays in sync
with the recorded sizes; while no header was emitted and the size total
was 0, no 200 result is consumed and the total stays 0; and a header is
only emitted when some task carries status 200. -/
theorem xmlScanPass_trace (i : Nat) :
    ∀ (tasks : List AsyncResult) (sizes : List Nat),
      (Emit.footer ∉ (xmlScanPass i tasks sizes).1)
      ∧ (noHeaderAfterBody (xmlScanPass i tasks sizes).1
          (decide (sizes.sum ≠ 0)) = true)
      ∧ ((decide (sizes.sum ≠ 0) || anyRealBody (xmlScanPass i tasks sizes).1)
          = decide ((xmlScanPass i tasks sizes).2.2.sum ≠ 0))
      ∧ (Emit.header ∉ (xmlScanPass i tasks sizes).1 → sizes.sum = 0 →
          ((xmlScanPass i tasks sizes).2.1.any
              (fun t => t.res.status_code = 200)
            = tasks.any (fun t => t.res.status_code = 200))
          ∧ (xmlScanPass i tasks sizes).2.2.sum = 0)
      ∧ (Emit.header ∈ (xmlScanPass i tasks sizes).1 →
          tasks.any (fun t => t.res.status_code = 200) = true) := by
  intro tasks sizes
  induction tasks, sizes using xmlScanPass.induct i with
  | case1 sizes =>
    simp [xmlScanPass, noHeaderAfterBody, anyRealBody]
  | case2 sizes u hready hb =>
    have h200 := iter_branch_error u.res.status_code hb
    simp [xmlScanPass, hready, hb, h200, noHeaderAfterBody, anyRealBody]
  | case3 sizes u hready hb u1 rest' ih =>
    have h200 := iter_branch_error u.res.status_code hb
    have heval : xmlScanPass i (u :: u1 :: rest') sizes
        = ((xmlScanPass i rest' (sizes ++ [0])).1,
           u1 :: (xmlScanPass i rest' (sizes ++ [0])).2.1,
           (xmlScanPass i rest' (sizes ++ [0])).2.2) := by
      simp [xmlScanPass, hready, hb]
    rw [heval]
    have hsum : (sizes ++ [0]).sum = sizes.sum := by simp
    refine ⟨ih.1, ?_, ?_, ?_, ?_⟩
    · have h := ih.2.1
      rw [hsum] at h
      exact h
    · have h := ih.2.2.1
      rw [hsum] at h
      simpa using h
    · intro hnh hs0
      have hih := ih.2.2.2.1 hnh (by rw [hsum]; exact hs0)
      refine ⟨?_, hih.2⟩
      simp only [List.any_cons, hih.1]
      simp [h200]
    · intro hh
      have h := ih.2.2.2.2 hh
      simp [List.any_cons, h]
  | case4 sizes u hready hb =>
    exact absurd hb (iter_branch_ne_handle413 _)
  | case5 sizes u hready hb u1 rest' ih =>
    exact absurd hb (iter_branch_ne_handle413 _)
  | case6 sizes u hready hb =>
    have h200 := iter_branch_stream u.res.status_code hb
    have hlen : u.res.length = u.res.data.length := by
      simp [DownloadResult.length, h200]
    have heval : xmlScanPass i [u] sizes
        = ((if sizes.sum = 0 then [Emit.header] else [])
            ++ (generate_chunks 1024 u.res.data).map Emit.body,
           [], sizes ++ [u.res.length]) := by
      simp [xmlScanPass, hready, hb]
    rw [heval]
    refine ⟨?_, ?_, ?_, ?_, ?_⟩
    · by_cases hs : sizes.sum = 0 <;> simp [hs, List.mem_map]
    · by_cases hs : sizes.sum = 0
      · simp only [hs, if_pos rfl]
        simp [noHeaderAfterBody, hs, noHeaderAfterBody_bodies]
      · simp only [hs, if_neg hs]
        simp [noHeaderAfterBody_bodies]
    · rw [hlen]
      rw [anyRealBody_append, anyRealBody_chunks]
      by_cases hs : sizes.sum = 0 <;> by_cases hd : u.res.data = [] <;>
        simp [hs, hd, anyRealBody, List.sum_append, List.length_eq_zero]
    · intro hnh hs0
      exfalso
      apply hnh
      simp [hs0]
    · intro _
      simp [List.any_cons, h200]
  | case7 sizes u hready hb u1 rest' ih =>
    have h200 := iter_branch_stream u.res.status_code hb
    have hlen : u.res.length = u.res.data.length := by
      simp [DownloadResult.length, h200]
    have heval : xmlScanPass i (u :: u1 :: rest') sizes
        = (((if sizes.sum = 0 then [Emit.header] else [])
              ++ (generate_chunks 1024 u.res.data).map Emit.body)
            ++ (xmlScanPass i rest' (sizes ++ [u.res.length])).1,
           u1 :: (xmlScanPass i rest' (sizes ++ [u.res.length])).2.1,
           (xmlScanPass i rest' (sizes ++ [u.res.length])).2.2) := by
      simp [xmlScanPass, hready, hb]
    rw [heval]
    have hflag : (decide (sizes.sum ≠ 0)
        || anyRealBody ((if sizes.sum = 0 then [Emit.header] else [])
            ++ (generate_chunks 1024 u.res.data).map Emit.body))
        = decide ((sizes ++ [u.res.length]).sum ≠ 0) := by
      rw [hlen]
      rw [anyRealBody_append, anyRealBody_chunks]
      by_cases hs : sizes.sum = 0 <;> by_cases hd : u.res.data = [] <;>
        simp [hs, hd, anyRealBody, List.sum_append, List.length_eq_zero]
    refine ⟨?_, ?_, ?_, ?_, ?_⟩
    · by_cases hs : sizes.sum = 0 <;>
        simp [hs, List.mem_append, List.mem_map, ih.1]
    · rw [noHeaderAfterBody_append, hflag]
      have hhead : noHeaderAfterBody
          ((if sizes.sum = 0 then [Emit.header] else [])
            ++ (generate_chunks 1024 u.res.data).map Emit.body)
          (decide (sizes.sum ≠ 0)) = true := by
        by_cases hs : sizes.sum = 0
        · simp only [hs, if_pos rfl]
          simp [noHeaderAfterBody, hs, noHeaderAfterBody_bodies]
        · simp only [hs, if_neg hs]
          simp [noHeaderAfterBody_bodies]
      rw [hhead, ih.2.1]
      rfl
    · rw [anyRealBody_append, ← Bool.or_assoc, hflag, ih.2.2.1]
    · intro hnh hs0
      exfalso
      apply hnh
      simp [hs0]
    · intro _
      simp [List.any_cons, h200]
  | case8 sizes u rest' hready ih =>
    have heval : xmlScanPass i (u :: rest') sizes
        = ((xmlScanPass i rest' sizes).1,
           u :: (xmlScanPass i rest' sizes).2.1,
           (xmlScanPass i rest' sizes).2.2) := by
      cases rest' with
      | nil => simp [xmlScanPass, hready]
      | cons a as => simp [xmlScanPass, hready]
    rw [heval]
    refine ⟨ih.1, ih.2.1, ih.2.2.1, ?_, ?_⟩
    · intro hnh hs0
      have hih := ih.2.2.2.1 hnh hs0
      refine ⟨?_, hih.2⟩
      simp [List.any_cons, hih.1]
    · intro hh
      have h := ih.2.2.2.2 hh
      simp [List.any_cons, h]

/-- Whole-run trace invariants of the station-XML `__iter__` loop. -/
theorem xmlIterLoop_trace (fuel : Nat) :
    ∀ (i : Nat) (tasks : List AsyncResult) (sizes : List Nat)
      (es : List Emit) (szs : List Nat),
      xmlIterLoop fuel i tasks sizes = some (es, szs) →
      es.count Emit.footer = 1
      ∧ es.getLast? = some Emit.footer
      ∧ noHeaderAfterBody es (decide (sizes.sum ≠ 0)) = true
      ∧ (sizes.sum = 0 →
          (Emit.header ∈ es ↔
            tasks.any (fun t => t.res.status_code = 200) = true)) := by
  induction fuel with
  | zero => intro i tasks sizes es szs h; simp [xmlIterLoop] at h
  | succ n ih =>
    intro i tasks sizes es szs h
    rw [xmlIterLoop] at h
    have trace := xmlScanPass_trace i tasks sizes
    by_cases hend : (xmlScanPass i tasks sizes).2.1 = []
    · rw [if_pos hend] at h
      rw [Option.some_inj] at h
      have hes : es = (xmlScanPass i tasks sizes).1 ++ [Emit.footer] :=
        (Prod.mk.injEq _ _ _ _).mp h |>.1.symm
      subst hes
      refine ⟨?_, ?_, ?_, ?_⟩
      · rw [List.count_append]
        rw [List.count_eq_zero.mpr trace.1]
        rfl
      · exact List.getLast?_concat _
      · rw [noHeaderAfterBody_append, trace.2.1]
        rfl
      · intro hs0
        constructor
        · intro hh
          rcases List.mem_append.mp hh with hh | hh
          · exact trace.2.2.2.2 hh
          · simp at hh
        · intro hany
          by_contra hnh
          have hnh' : Emit.header ∉ (xmlScanPass i tasks sizes).1 := by
            intro hmem
            exact hnh (List.mem_append.mpr (Or.inl hmem))
          have h4 := trace.2.2.2.1 hnh' hs0
          rw [hend] at h4
          rw [hany] at h4
          simpa using h4.1
    · rw [if_neg hend] at h
      cases hrec : xmlIterLoop n (i + 1) (xmlScanPass i tasks sizes).2.1
          (xmlScanPass i tasks sizes).2.2 with
      | none => rw [hrec] at h; simp at h
      | some p =>
        obtain ⟨es2, szs2⟩ := p
        rw [hrec] at h
        rw [Option.some_inj] at h
        have hes : es = (xmlScanPass i tasks sizes).1 ++ es2 :=
          (Prod.mk.injEq _ _ _ _).mp h |>.1.symm
        subst hes
        have IH := ih (i + 1) _ _ _ _ hrec
        refine ⟨?_, ?_, ?_, ?_⟩
        · rw [List.count_append, List.count_eq_zero.mpr trace.1, IH.1]
        · have hne : es2 ≠ [] := by
            intro h0
            rw [h0] at IH
            simpa using IH.2.1
          rw [List.getLast?_append_of_ne_nil _ hne]
          exact IH.2.1
        · rw [noHeaderAfterBody_append, trace.2.1, trace.2.2.1, IH.2.2.1]
          rfl
        · intro hs0
          constructor
          · intro hh
            rcases List.mem_append.mp hh with hh | hh
            · exact trace.2.2.2.2 hh
            · by_cases hph : Emit.header ∈ (xmlScanPass i tasks sizes).1
              · exact trace.2.2.2.2 hph
              · have h4 := trace.2.2.2.1 hph hs0
                rw [← h4.1]
                exact (IH.2.2.2 h4.2).mp hh
          · intro hany
            by_cases hph : Emit.header ∈ (xmlScanPass i tasks sizes).1
            · exact List.mem_append.mpr (Or.inl hph)
            · have h4 := trace.2.2.2.1 hph hs0
              refine List.mem_append.mpr (Or.inr ?_)
              apply (IH.2.2.2 h4.2).mpr
              rw [h4.1, hany]

/-- A wfcatalog sweep never yields the footer. -/
theorem wfScanPass_no_footer (i : Nat) :
    ∀ (kept : Nat) (tasks : List AsyncResult) (sizes : List Nat)
      (r : List Emit × List AsyncResult × List Nat),
      wfScanPass i kept tasks sizes = some r → Emit.footer ∉ r.1 := by
  intro kept tasks sizes
  induction kept, tasks, sizes using wfScanPass.induct i with
  | case1 kept sizes =>
    intro r h
    rw [wfScanPass, Option.some_inj] at h
    subst h
    simp
  | case2 kept sizes u hready hb =>
    intro r h
    have heval : wfScanPass i kept [u] sizes = some ([], [], sizes ++ [0]) := by
      simp [wfScanPass, hready, hb]
    rw [heval, Option.some_inj] at h
    subst h
    simp
  | case3 kept sizes u hready hb u1 rest' ih =>
    intro r h
    cases hrec : wfScanPass i (kept + 1) rest' (sizes ++ [0]) with
    | none =>
      have heval : wfScanPass i kept (u :: u1 :: rest') sizes = none := by
        simp [wfScanPass, hready, hb, hrec]
      rw [heval] at h
      exact absurd h (by simp)
    | some r' =>
      have heval : wfScanPass i kept (u :: u1 :: rest') sizes
          = some (r'.1, u1 :: r'.2.1, r'.2.2) := by
        simp [wfScanPass, hready, hb, hrec]
      rw [heval, Option.some_inj] at h
      subst h
      simpa using ih r' hrec
  | case4 kept sizes u rest' hready hb =>
    exact absurd hb (iter_branch_ne_handle413 _)
  | case5 kept sizes u hready hb =>
    intro r h
    have heval : wfScanPass i kept [u] sizes
        = some ((if sizes.sum = 0 then [Emit.header] else [])
            ++ (generate_chunks_wf 1024 (u.res.data.drop 1)).map Emit.body
            ++ (if kept + 1 + ([] : List AsyncResult).length > 1
                then [Emit.sep] else []),
          [], sizes ++ [((generate_chunks_wf 1024 (u.res.data.drop 1)).map
              List.length).sum]) := by
      simp [wfScanPass, hready, hb]
    rw [heval, Option.some_inj] at h
    subst h
    by_cases hs : sizes.sum = 0 <;>
      by_cases hsep : kept + 1 + ([] : List AsyncResult).length > 1 <;>
        simp [hs, hsep, List.mem_append, List.mem_map]
  | case6 kept sizes u hready hb chunksv sizev u1 rest' ih =>
    intro r h
    cases hrec : wfScanPass i (kept + 1) rest'
        (sizes ++ [((generate_chunks_wf 1024 u.res.data.tail).map
          List.length).sum]) with
    | none =>
      have heval : wfScanPass i kept (u :: u1 :: rest') sizes = none := by
        simp [wfScanPass, hready, hb, hrec]
      rw [heval] at h
      exact absurd h (by simp)
    | some r' =>
      have heval : wfScanPass i kept (u :: u1 :: rest') sizes
          = some ((if sizes.sum = 0 then [Emit.header] else [])
              ++ (generate_chunks_wf 1024 u.res.data.tail).map Emit.body
              ++ (if kept + 1 + (u1 :: rest').length > 1
                  then [Emit.sep] else [])
              ++ r'.1,
            u1 :: r'.2.1, r'.2.2) := by
        simp [wfScanPass, hready, hb, hrec]
      rw [heval, Option.some_inj] at h
      subst h
      have hihr := ih r' (by rw [← List.drop_one] at hrec; exact hrec)
      by_cases hs : sizes.sum = 0 <;>
        by_cases hsep : kept + 1 + (u1 :: rest').length > 1 <;>
          simp [hs, hsep, List.mem_append, List.mem_map, hihr]
  | case7 kept sizes u rest' hready ih =>
    intro r h
    have heval : wfScanPass i kept (u :: rest') sizes
        = (wfScanPass i (kept + 1) rest' sizes).map
            (fun q => (q.1, u :: q.2.1, q.2.2)) := by
      cases rest' with
      | nil => simp [wfScanPass, hready]
      | cons a as => simp [wfScanPass, hready]
    rw [heval] at h
    cases hrec : wfScanPass i (kept + 1) rest' sizes with
    | none => rw [hrec] at h; exact absurd h (by simp)
    | some r' =>
      rw [hrec] at h
      simp only [Option.map] at h
      rw [Option.some_inj] at h
      subst h
      simpa using ih r' hrec

/-- The wfcatalog loop yields its footer exactly once, as the final
chunk. -/
theorem wfIterLoop_footer (fuel : Nat) :
    ∀ (i : Nat) (tasks : List AsyncResult) (sizes : List Nat)
      (es : List Emit) (szs : List Nat),
      wfIterLoop fuel i tasks sizes = some (es, szs) →
      es.count Emit.footer = 1 ∧ es.getLast? = some Emit.footer := by
  induction fuel with
  | zero => intro i tasks sizes es szs h; simp [wfIterLoop] at h
  | succ n ih =>
    intro i tasks sizes es szs h
    rw [wfIterLoop] at h
    cases hpass : wfScanPass i 0 tasks sizes with
    | none => rw [hpass] at h; simp at h
    | some r =>
      obtain ⟨es1, ts', szs'⟩ := r
      rw [hpass] at h
      dsimp only at h
      have hnf : Emit.footer ∉ es1 := wfScanPass_no_footer i 0 tasks sizes _ hpass
      by_cases hend : ts' = []
      · rw [if_pos hend] at h
        rw [Option.some_inj] at h
        have hes : es = es1 ++ [Emit.footer] :=
          (Prod.mk.injEq _ _ _ _).mp h |>.1.symm
        subst hes
        constructor
        · rw [List.count_append, List.count_eq_zero.mpr hnf]
          rfl
        · exact List.getLast?_concat _
      · rw [if_neg hend] at h
        cases hrec : wfIterLoop n (i + 1) ts' szs' with
        | none => rw [hrec] at h; simp at h
        | some p =>
          obtain ⟨es2, szs2⟩ := p
          rw [hrec] at h
          rw [Option.some_inj] at h
          have hes : es = es1 ++ es2 :=
            (Prod.mk.injEq _ _ _ _).mp h |>.1.symm
          subst hes
          have IH := ih (i + 1) _ _ _ _ hrec
          constructor
          · rw [List.count_append, List.count_eq_zero.mpr hnf, IH.1]
          · have hne : es2 ≠ [] := by
              intro h0
              rw [h0] at IH
              simpa using IH.2
            rw [List.getLast?_append_of_ne_nil _ hne]
            exact IH.2

/-- A list of body chunks contains a nonempty one iff the recorded size
(the sum of the chunk lengths) is nonzero. -/
theorem anyRealBody_map_body_sizes (ls : List (List Char)) :
    anyRealBody (ls.map Emit.body) = decide ((ls.map List.length).sum ≠ 0) := by
  induction ls with
  | nil => rfl
  | cons l rest ih =>
    have hcons : anyRealBody (Emit.body l :: rest.map Emit.body)
        = (!l.isEmpty || anyRealBody (rest.map Emit.body)) := by
      simp [anyRealBody]
    simp only [List.map_cons, List.sum_cons, hcons, ih]
    by_cases hl : l = []
    · subst hl; simp
    · have hpos : 0 < l.length := List.length_pos.mpr hl
      have h1 : (!l.isEmpty) = true := by simp [hl]
      rw [h1]
      simp only [Bool.true_or]
      have hne : l.length + (rest.map List.length).sum ≠ 0 := by omega
      simp [hne]

theorem anyRealBody_file_lines :
    ∀ (rem acc : List Char),
      anyRealBody ((file_lines rem acc).map Emit.body)
        = (!rem.isEmpty || !acc.isEmpty) := by
  intro rem
  induction rem with
  | nil =>
    intro acc
    cases acc with
    | nil => rfl
    | cons a as => simp [file_lines, anyRealBody]
  | cons c cs ih =>
    intro acc
    by_cases hc : c = '\n'
    · subst hc
      simp [file_lines, anyRealBody]
    · simp [file_lines, hc, ih (c :: acc)]

/-- The lines yielded for a payload contain a nonempty one iff the
payload is nonempty (every yielded line is in fact nonempty). -/
theorem anyRealBody_lines (data : List Char) :
    anyRealBody ((file_lines data []).map Emit.body) = !data.isEmpty := by
  rw [anyRealBody_file_lines]
  simp

theorem text_header_emits_of_level (level : String)
    (h : level = "network" ∨ level = "station" ∨ level = "channel") :
    text_header_emits level = [Emit.header] := by
  rcases h with h | h | h <;> subst h <;> rfl

theorem noHeaderAfterBody_sep_if (c : Prop) [hc : Decidable c] (b : Bool) :
    noHeaderAfterBody (if c then [Emit.sep] else []) b = true := by
  split <;> rfl

theorem anyRealBody_sep_if (c : Prop) [hc : Decidable c] :
    anyRealBody (if c then [Emit.sep] else []) = false := by
  split <;> rfl

/-- Per-sweep trace invariants of the wfcatalog loop, stated as for the
station-XML sweep (the separator yields affect neither the header rule
nor the size accounting): no header after a nonempty body; the
recorded-size total is nonzero after the sweep iff it was before or a
nonempty body chunk was yielded; while nothing was yielded the set of
outstanding 200s is preserved; a header is only yielded when some task
carries status 200. -/
theorem wfScanPass_trace (i : Nat) :
    ∀ (kept : Nat) (tasks : List AsyncResult) (sizes : List Nat)
      (r : List Emit × List AsyncResult × List Nat),
      wfScanPass i kept tasks sizes = some r →
      (noHeaderAfterBody r.1 (decide (sizes.sum ≠ 0)) = true)
      ∧ ((decide (sizes.sum ≠ 0) || anyRealBody r.1)
          = decide (r.2.2.sum ≠ 0))
      ∧ (Emit.header ∉ r.1 → sizes.sum = 0 →
          (r.2.1.any (fun t => t.res.status_code = 200)
            = tasks.any (fun t => t.res.status_code = 200))
          ∧ r.2.2.sum = 0)
      ∧ (Emit.header ∈ r.1 →
          tasks.any (fun t => t.res.status_code = 200) = true) := by
  intro kept tasks sizes
  induction kept, tasks, sizes using wfScanPass.induct i with
  | case1 kept sizes =>
    intro r h
    rw [wfScanPass, Option.some_inj] at h
    subst h
    simp [noHeaderAfterBody, anyRealBody]
  | case2 kept sizes u hready hb =>
    have h200 := iter_branch_error u.res.status_code hb
    intro r h
    have heval : wfScanPass i kept [u] sizes = some ([], [], sizes ++ [0]) := by
      simp [wfScanPass, hready, hb]
    rw [heval, Option.some_inj] at h
    subst h
    simp [noHeaderAfterBody, anyRealBody, h200]
  | case3 kept sizes u hready hb u1 rest' ih =>
    have h200 := iter_branch_error u.res.status_code hb
    intro r h
    cases hrec : wfScanPass i (kept + 1) rest' (sizes ++ [0]) with
    | none =>
      have heval : wfScanPass i kept (u :: u1 :: rest') sizes = none := by
        simp [wfScanPass, hready, hb, hrec]
      rw [heval] at h
      exact absurd h (by simp)
    | some r' =>
      have heval : wfScanPass i kept (u :: u1 :: rest') sizes
          = some (r'.1, u1 :: r'.2.1, r'.2.2) := by
        simp [wfScanPass, hready, hb, hrec]
      rw [heval, Option.some_inj] at h
      subst h
      have hih := ih r' hrec
      have hsum : (sizes ++ [0]).sum = sizes.sum := by simp
      rw [hsum] at hih
      refine ⟨hih.1, by simpa using hih.2.1, ?_, ?_⟩
      · intro hnh hs0
        have hp := hih.2.2.1 hnh hs0
        refine ⟨?_, hp.2⟩
        simp only [List.any_cons, hp.1]
        simp [h200]
      · intro hh
        have hp := hih.2.2.2 hh
        simp [List.any_cons, hp]
  | case4 kept sizes u rest' hready hb =>
    exact absurd hb (iter_branch_ne_handle413 _)
  | case5 kept sizes u hready hb =>
    have h200 := iter_branch_stream u.res.status_code hb
    intro r h
    have heval : wfScanPass i kept [u] sizes
        = some ((if sizes.sum = 0 then [Emit.header] else [])
            ++ (generate_chunks_wf 1024 (u.res.data.drop 1)).map Emit.body
            ++ (if kept + 1 + ([] : List AsyncResult).length > 1
                then [Emit.sep] else []),
          [], sizes ++ [((generate_chunks_wf 1024 (u.res.data.drop 1)).map
              List.length).sum]) := by
      simp [wfScanPass, hready, hb]
    rw [heval, Option.some_inj] at h
    subst h
    refine ⟨?_, ?_, ?_, ?_⟩
    · rw [noHeaderAfterBody_append, noHeaderAfterBody_sep_if, Bool.and_true,
        noHeaderAfterBody_append]
      by_cases hs : sizes.sum = 0 <;>
        simp [hs, noHeaderAfterBody, anyRealBody, noHeaderAfterBody_bodies]
    · rw [anyRealBody_append, anyRealBody_sep_if, Bool.or_false,
        anyRealBody_append, anyRealBody_map_body_sizes]
      by_cases hs : sizes.sum = 0 <;>
        by_cases hd : ((generate_chunks_wf 1024 (u.res.data.drop 1)).map
            List.length).sum = 0 <;>
          simp [hs, hd, anyRealBody, List.sum_append]
    · intro hnh hs0
      exfalso
      apply hnh
      simp [hs0]
    · intro _
      simp [List.any_cons, h200]
  | case6 kept sizes u hready hb chunksv sizev u1 rest' ih =>
    have h200 := iter_branch_stream u.res.status_code hb
    intro r h
    cases hrec : wfScanPass i (kept + 1) rest'
        (sizes ++ [((generate_chunks_wf 1024 u.res.data.tail).map
          List.length).sum]) with
    | none =>
      have heval : wfScanPass i kept (u :: u1 :: rest') sizes = none := by
        simp [wfScanPass, hready, hb, hrec]
      rw [heval] at h
      exact absurd h (by simp)
    | some r' =>
      have heval : wfScanPass i kept (u :: u1 :: rest') sizes
          = some ((if sizes.sum = 0 then [Emit.header] else [])
              ++ (generate_chunks_wf 1024 u.res.data.tail).map Emit.body
              ++ (if kept + 1 + (u1 :: rest').length > 1
                  then [Emit.sep] else [])
              ++ r'.1,
            u1 :: r'.2.1, r'.2.2) := by
        simp [wfScanPass, hready, hb, hrec]
      rw [heval, Option.some_inj] at h
      subst h
      have hih := ih r' (by rw [← List.drop_one] at hrec; exact hrec)
      have hsizev : sizev
          = ((generate_chunks_wf 1024 u.res.data.tail).map List.length).sum := by
        rw [← List.drop_one]
      rw [hsizev] at hih
      have hflag : (decide (sizes.sum ≠ 0)
          || anyRealBody ((if sizes.sum = 0 then [Emit.header] else [])
              ++ (generate_chunks_wf 1024 u.res.data.tail).map Emit.body
              ++ (if kept + 1 + (u1 :: rest').length > 1
                  then [Emit.sep] else [])))
          = decide ((sizes
              ++ [((generate_chunks_wf 1024 u.res.data.tail).map
                List.length).sum]).sum ≠ 0) := by
        rw [anyRealBody_append, anyRealBody_sep_if, Bool.or_false,
          anyRealBody_append, anyRealBody_map_body_sizes]
        by_cases hs : sizes.sum = 0 <;>
          by_cases hd : ((generate_chunks_wf 1024 u.res.data.tail).map
              List.length).sum = 0 <;>
            simp [hs, hd, anyRealBody, List.sum_append]
      refine ⟨?_, ?_, ?_, ?_⟩
      · rw [noHeaderAfterBody_append, hflag]
        have hhead : noHeaderAfterBody
            ((if sizes.sum = 0 then [Emit.header] else [])
              ++ (generate_chunks_wf 1024 u.res.data.tail).map Emit.body
              ++ (if kept + 1 + (u1 :: rest').length > 1
                  then [Emit.sep] else []))
            (decide (sizes.sum ≠ 0)) = true := by
          rw [noHeaderAfterBody_append, noHeaderAfterBody_sep_if, Bool.and_true,
            noHeaderAfterBody_append]
          by_cases hs : sizes.sum = 0 <;>
            simp [hs, noHeaderAfterBody, anyRealBody, noHeaderAfterBody_bodies]
        rw [hhead, hih.1]
        rfl
      · rw [anyRealBody_append, ← Bool.or_assoc, hflag]
        exact hih.2.1
      · intro hnh hs0
        exfalso
        apply hnh
        simp [hs0]
      · intro _
        simp [List.any_cons, h200]
  | case7 kept sizes u rest' hready ih =>
    intro r h
    have heval : wfScanPass i kept (u :: rest') sizes
        = (wfScanPass i (kept + 1) rest' sizes).map
            (fun q => (q.1, u :: q.2.1, q.2.2)) := by
      cases rest' with
      | nil => simp [wfScanPass, hready]
      | cons a as => simp [wfScanPass, hready]
    rw [heval] at h
    cases hrec : wfScanPass i (kept + 1) rest' sizes with
    | none => rw [hrec] at h; exact absurd h (by simp)
    | some r' =>
      rw [hrec] at h
      simp only [Option.map] at h
      rw [Option.some_inj] at h
      subst h
      have hih := ih r' hrec
      refine ⟨hih.1, hih.2.1, ?_, ?_⟩
      · intro hnh hs0
        have hp := hih.2.2.1 hnh hs0
        refine ⟨?_, hp.2⟩
        simp [List.any_cons, hp.1]
      · intro hh
        have hp := hih.2.2.2 hh
        simp [List.any_cons, hp]

/-- Header/flag discipline of the wfcatalog loop: no `[` after a
nonempty body chunk, and starting from a zero recorded-size total a
header is yielded iff some task returned status 200. -/
theorem wfIterLoop_nh (fuel : Nat) :
    ∀ (i : Nat) (tasks : List AsyncResult) (sizes : List Nat)
      (es : List Emit) (szs : List Nat),
      wfIterLoop fuel i tasks sizes = some (es, szs) →
      noHeaderAfterBody es (decide (sizes.sum ≠ 0)) = true
      ∧ (sizes.sum = 0 →
          (Emit.header ∈ es ↔
            tasks.any (fun t => t.res.status_code = 200) = true)) := by
  induction fuel with
  | zero => intro i tasks sizes es szs h; simp [wfIterLoop] at h
  | succ n ih =>
    intro i tasks sizes es szs h
    rw [wfIterLoop] at h
    cases hpass : wfScanPass i 0 tasks sizes with
    | none => rw [hpass] at h; simp at h
    | some r =>
      obtain ⟨es1, ts', szs'⟩ := r
      rw [hpass] at h
      dsimp only at h
      have trace : noHeaderAfterBody es1 (decide (sizes.sum ≠ 0)) = true
          ∧ (decide (sizes.sum ≠ 0) || anyRealBody es1)
              = decide (szs'.sum ≠ 0)
          ∧ (Emit.header ∉ es1 → sizes.sum = 0 →
              (ts'.any (fun t => t.res.status_code = 200)
                = tasks.any (fun t => t.res.status_code = 200))
              ∧ szs'.sum = 0)
          ∧ (Emit.header ∈ es1 →
              tasks.any (fun t => t.res.status_code = 200) = true) :=
        wfScanPass_trace i 0 tasks sizes _ hpass
      by_cases hend : ts' = []
      · rw [if_pos hend] at h
        rw [Option.some_inj] at h
        have hes : es = es1 ++ [Emit.footer] :=
          (Prod.mk.injEq _ _ _ _).mp h |>.1.symm
        subst hes
        refine ⟨?_, ?_⟩
        · rw [noHeaderAfterBody_append, trace.1]
          rfl
        · intro hs0
          constructor
          · intro hh
            rcases List.mem_append.mp hh with hh | hh
            · exact trace.2.2.2 hh
            · simp at hh
          · intro hany
            by_contra hnh
            have hnh1 : Emit.header ∉ es1 := fun hmem =>
              hnh (List.mem_append.mpr (Or.inl hmem))
            have h4 := trace.2.2.1 hnh1 hs0
            rw [hend] at h4
            rw [hany] at h4
            simpa using h4.1
      · rw [if_neg hend] at h
        cases hrec : wfIterLoop n (i + 1) ts' szs' with
        | none => rw [hrec] at h; simp at h
        | some p =>
          obtain ⟨es2, szs2⟩ := p
          rw [hrec] at h
          rw [Option.some_inj] at h
          have hes : es = es1 ++ es2 :=
            (Prod.mk.injEq _ _ _ _).mp h |>.1.symm
          subst hes
          have IH := ih (i + 1) _ _ _ _ hrec
          refine ⟨?_, ?_⟩
          · rw [noHeaderAfterBody_append, trace.1, trace.2.1, IH.1]
            rfl
          · intro hs0
            constructor
            · intro hh
              rcases List.mem_append.mp hh with hh | hh
              · exact trace.2.2.2 hh
              · by_cases hph : Emit.header ∈ es1
                · exact trace.2.2.2 hph
                · have h4 := trace.2.2.1 hph hs0
                  rw [← h4.1]
                  exact (IH.2 h4.2).mp hh
            · intro hany
              by_cases hph : Emit.header ∈ es1
              · exact List.mem_append.mpr (Or.inl hph)
              · have h4 := trace.2.2.1 hph hs0
                refine List.mem_append.mpr (Or.inr ?_)
                apply (IH.2 h4.2).mpr
                rw [h4.1, hany]

/-- Per-sweep trace invariants of the station-text loop (for the three
recognised levels): no footer and no separator are ever yielded; no
header after a nonempty body line; flag/size synchronisation; outcome
preservation while nothing was yielded; a header only with a 200. -/
theorem textScanPass_trace (level : String)
    (hlevel : level = "network" ∨ level = "station" ∨ level = "channel")
    (i : Nat) :
    ∀ (tasks : List AsyncResult) (sizes : List Nat),
      (Emit.footer ∉ (textScanPass level i tasks sizes).1)
      ∧ (noHeaderAfterBody (textScanPass level i tasks sizes).1
          (decide (sizes.sum ≠ 0)) = true)
      ∧ ((decide (sizes.sum ≠ 0)
            || anyRealBody (textScanPass level i tasks sizes).1)
          = decide ((textScanPass level i tasks sizes).2.2.sum ≠ 0))
      ∧ (Emit.header ∉ (textScanPass level i tasks sizes).1 → sizes.sum = 0 →
          ((textScanPass level i tasks sizes).2.1.any
              (fun t => t.res.status_code = 200)
            = tasks.any (fun t => t.res.status_code = 200))
          ∧ (textScanPass level i tasks sizes).2.2.sum = 0)
      ∧ (Emit.header ∈ (textScanPass level i tasks sizes).1 →
          tasks.any (fun t => t.res.status_code = 200) = true) := by
  have hte := text_header_emits_of_level level hlevel
  intro tasks sizes
  induction tasks, sizes using textScanPass.induct level i with
  | case1 sizes =>
    simp [textScanPass, noHeaderAfterBody, anyRealBody]
  | case2 sizes u hready hb =>
    have h200 := iter_branch_error u.res.status_code hb
    simp [textScanPass, hready, hb, h200, noHeaderAfterBody, anyRealBody]
  | case3 sizes u hready hb u1 rest' ih =>
    have h200 := iter_branch_error u.res.status_code hb
    have heval : textScanPass level i (u :: u1 :: rest') sizes
        = ((textScanPass level i rest' (sizes ++ [0])).1,
           u1 :: (textScanPass level i rest' (sizes ++ [0])).2.1,
           (textScanPass level i rest' (sizes ++ [0])).2.2) := by
      simp [textScanPass, hready, hb]
    rw [heval]
    have hsum : (sizes ++ [0]).sum = sizes.sum := by simp
    refine ⟨ih.1, ?_, ?_, ?_, ?_⟩
    · have h := ih.2.1
      rw [hsum] at h
      exact h
    · have h := ih.2.2.1
      rw [hsum] at h
      simpa using h
    · intro hnh hs0
      have hih := ih.2.2.2.1 hnh (by rw [hsum]; exact hs0)
      refine ⟨?_, hih.2⟩
      simp only [List.any_cons, hih.1]
      simp [h200]
    · intro hh
      have h := ih.2.2.2.2 hh
      simp [List.any_cons, h]
  | case4 sizes u hready hb =>
    exact absurd hb (iter_branch_ne_handle413 _)
  | case5 sizes u hready hb u1 rest' ih =>
    exact absurd hb (iter_branch_ne_handle413 _)
  | case6 sizes u hready hb =>
    have h200 := iter_branch_stream u.res.status_code hb
    have hlen : u.res.length = u.res.data.length := by
      simp [DownloadResult.length, h200]
    have heval : textScanPass level i [u] sizes
        = ((if sizes.sum = 0 then [Emit.header] else [])
            ++ (file_lines u.res.data []).map Emit.body,
           [], sizes ++ [u.res.length]) := by
      simp [textScanPass, hready, hb, hte]
    rw [heval]
    refine ⟨?_, ?_, ?_, ?_, ?_⟩
    · by_cases hs : sizes.sum = 0 <;> simp [hs, List.mem_map]
    · by_cases hs : sizes.sum = 0
      · simp only [hs, if_pos rfl]
        simp [noHeaderAfterBody, hs, noHeaderAfterBody_bodies]
      · simp only [hs, if_neg hs]
        simp [noHeaderAfterBody_bodies]
    · rw [hlen]
      rw [anyRealBody_append, anyRealBody_lines]
      by_cases hs : sizes.sum = 0 <;> by_cases hd : u.res.data = [] <;>
        simp [hs, hd, anyRealBody, List.sum_append, List.length_eq_zero]
    · intro hnh hs0
      exfalso
      apply hnh
      simp [hs0]
    · intro _
      simp [List.any_cons, h200]
  | case7 sizes u hready hb u1 rest' ih =>
    have h200 := iter_branch_stream u.res.status_code hb
    have hlen : u.res.length = u.res.data.length := by
      simp [DownloadResult.length, h200]
    have heval : textScanPass level i (u :: u1 :: rest') sizes
        = (((if sizes.sum = 0 then [Emit.header] else [])
              ++ (file_lines u.res.data []).map Emit.body)
            ++ (textScanPass level i rest' (sizes ++ [u.res.length])).1,
           u1 :: (textScanPass level i rest' (sizes ++ [u.res.length])).2.1,
           (textScanPass level i rest' (sizes ++ [u.res.length])).2.2) := by
      simp [textScanPass, hready, hb, hte]
    rw [heval]
    have hflag : (decide (sizes.sum ≠ 0)
        || anyRealBody ((if sizes.sum = 0 then [Emit.header] else [])
            ++ (file_lines u.res.data []).map Emit.body))
        = decide ((sizes ++ [u.res.length]).sum ≠ 0) := by
      rw [hlen]
      rw [anyRealBody_append, anyRealBody_lines]
      by_cases hs : sizes.sum = 0 <;> by_cases hd : u.res.data = [] <;>
        simp [hs, hd, anyRealBody, List.sum_append, List.length_eq_zero]
    refine ⟨?_, ?_, ?_, ?_, ?_⟩
    · by_cases hs : sizes.sum = 0 <;>
        simp [hs, List.mem_append, List.mem_map, ih.1]
    · rw [noHeaderAfterBody_append, hflag]
      have hhead : noHeaderAfterBody
          ((if sizes.sum = 0 then [Emit.header] else [])
            ++ (file_lines u.res.data []).map Emit.body)
          (decide (sizes.sum ≠ 0)) = true := by
        by_cases hs : sizes.sum = 0
        · simp only [hs, if_pos rfl]
          simp [noHeaderAfterBody, hs, noHeaderAfterBody_bodies]
        · simp only [hs, if_neg hs]
          simp [noHeaderAfterBody_bodies]
      rw [hhead, ih.2.1]
      rfl
    · rw [anyRealBody_append, ← Bool.or_assoc, hflag, ih.2.2.1]
    · intro hnh hs0
      exfalso
      apply hnh
      simp [hs0]
    · intro _
      simp [List.any_cons, h200]
  | case8 sizes u rest' hready ih =>
    have heval : textScanPass level i (u :: rest') sizes
        = ((textScanPass level i rest' sizes).1,
           u :: (textScanPass level i rest' sizes).2.1,
           (textScanPass level i rest' sizes).2.2) := by
      cases rest' with
      | nil => simp [textScanPass, hready]
      | cons a as => simp [textScanPass, hready]
    rw [heval]
    refine ⟨ih.1, ih.2.1, ih.2.2.1, ?_, ?_⟩
    · intro hnh hs0
      have hih := ih.2.2.2.1 hnh hs0
      refine ⟨?_, hih.2⟩
      simp [List.any_cons, hih.1]
    · intro hh
      have h := ih.2.2.2.2 hh
      simp [List.any_cons, h]

/-- Whole-run trace invariants of the station-text `__iter__` loop. -/
theorem textIterLoop_trace (level : String)
    (hlevel : level = "network" ∨ level = "station" ∨ level = "channel")
    (fuel : Nat) :
    ∀ (i : Nat) (tasks : List AsyncResult) (sizes : List Nat)
      (es : List Emit) (szs : List Nat),
      textIterLoop level fuel i tasks sizes = some (es, szs) →
      Emit.footer ∉ es
      ∧ noHeaderAfterBody es (decide (sizes.sum ≠ 0)) = true
      ∧ (sizes.sum = 0 →
          (Emit.header ∈ es ↔
            tasks.any (fun t => t.res.status_code = 200) = true)) := by
  induction fuel with
  | zero => intro i tasks sizes es szs h; simp [textIterLoop] at h
  | succ n ih =>
    intro i tasks sizes es szs h
    rw [textIterLoop] at h
    have trace := textScanPass_trace level hlevel i tasks sizes
    by_cases hend : (textScanPass level i tasks sizes).2.1 = []
    · rw [if_pos hend] at h
      rw [Option.some_inj] at h
      have hes : es = (textScanPass level i tasks sizes).1 :=
        (Prod.mk.injEq _ _ _ _).mp h |>.1.symm
      subst hes
      refine ⟨trace.1, trace.2.1, ?_⟩
      intro hs0
      constructor
      · exact fun hh => trace.2.2.2.2 hh
      · intro hany
        by_contra hnh
        have h4 := trace.2.2.2.1 hnh hs0
        rw [hend] at h4
        rw [hany] at h4
        simpa using h4.1
    · rw [if_neg hend] at h
      cases hrec : textIterLoop level n (i + 1)
          (textScanPass level i tasks sizes).2.1
          (textScanPass level i tasks sizes).2.2 with
      | none => rw [hrec] at h; simp at h
      | some p =>
        obtain ⟨es2, szs2⟩ := p
        rw [hrec] at h
        rw [Option.some_inj] at h
        have hes : es = (textScanPass level i tasks sizes).1 ++ es2 :=
          (Prod.mk.injEq _ _ _ _).mp h |>.1.symm
        subst hes
        have IH := ih (i + 1) _ _ _ _ hrec
        refine ⟨?_, ?_, ?_⟩
        · intro hmem
          rcases List.mem_append.mp hmem with hm | hm
          · exact trace.1 hm
          · exact IH.1 hm
        · rw [noHeaderAfterBody_append, trace.2.1, trace.2.2.1, IH.2.1]
          rfl
        · intro hs0
          constructor
          · intro hh
            rcases List.mem_append.mp hh with hh | hh
            · exact trace.2.2.2.2 hh
            · by_cases hph : Emit.header ∈ (textScanPass level i tasks sizes).1
              · exact trace.2.2.2.2 hph
              · have h4 := trace.2.2.2.1 hph hs0
                rw [← h4.1]
                exact (IH.2.2 h4.2).mp hh
          · intro hany
            by_cases hph : Emit.header ∈ (textScanPass level i tasks sizes).1
            · exact List.mem_append.mpr (Or.inl hph)
            · have h4 := trace.2.2.2.1 hph hs0
              refine List.mem_append.mpr (Or.inr ?_)
              apply (IH.2.2 h4.2).mpr
              rw [h4.1, hany]

/-! ## Claim C4 -/

/-- C4, counterexample: two 200 results, the first with a zero-length
payload.  The station-XML generator emits the header TWICE (once per 200
processed while the recorded-size total is still 0) although the body
length is 1 > 0, refuting that exactly one header is emitted. -/
theorem c4_counterexample_double_header :
    (xmlIterLoop 2 0 [⟨0, ⟨200, []⟩⟩, ⟨0, ⟨200, ['X']⟩⟩] []).map
        (fun p => (p.1.count Emit.header, anyRealBody p.1, p.1))
      = some (2, true,
          [Emit.header, Emit.header, Emit.body ['X'], Emit.footer]) := rfl

/-- C4 (amended): envelope discipline of the streamed generators, per
format.  Station-XML: the footer is yielded exactly once, as the final
chunk, unconditionally; a header is only yielded while the recorded-size
total is still zero, so no header ever follows a nonempty body chunk,
and at least one header is yielded iff some task returned status 200
(but several headers may be yielded, see the counterexample).
Wfcatalog: the `]` footer is likewise yielded exactly once, as the final
chunk, unconditionally, and the `[` header obeys the same zero-total
rule.  Station-text (levels network, station, channel): the header obeys
the same zero-total rule and no footer is ever yielded. -/
theorem c4_amended_envelope_discipline :
    (∀ (fuel i : Nat) (tasks : List AsyncResult) (es : List Emit)
        (szs : List Nat),
      xmlIterLoop fuel i tasks [] = some (es, szs) →
      es.count Emit.footer = 1
      ∧ es.getLast? = some Emit.footer
      ∧ noHeaderAfterBody es false = true
      ∧ (Emit.header ∈ es ↔
          tasks.any (fun t => t.res.status_code = 200) = true))
    ∧ (∀ (fuel i : Nat) (tasks : List AsyncResult) (sizes : List Nat)
        (es : List Emit) (szs : List Nat),
      wfIterLoop fuel i tasks sizes = some (es, szs) →
      es.count Emit.footer = 1
      ∧ es.getLast? = some Emit.footer
      ∧ noHeaderAfterBody es (decide (sizes.sum ≠ 0)) = true
      ∧ (sizes.sum = 0 →
          (Emit.header ∈ es ↔
            tasks.any (fun t => t.res.status_code = 200) = true)))
    ∧ (∀ (level : String),
        level = "network" ∨ level = "station" ∨ level = "channel" →
        ∀ (fuel i : Nat) (tasks : List AsyncResult) (es : List Emit)
          (szs : List Nat),
        textIterLoop level fuel i tasks [] = some (es, szs) →
        Emit.footer ∉ es
        ∧ noHeaderAfterBody es false = true
        ∧ (Emit.header ∈ es ↔
            tasks.any (fun t => t.res.status_code = 200) = true)) := by
  refine ⟨?_, ?_, ?_⟩
  · intro fuel i tasks es szs h
    have ht := xmlIterLoop_trace fuel i tasks [] es szs h
    refine ⟨ht.1, ht.2.1, ?_, ht.2.2.2 rfl⟩
    simpa using ht.2.2.1
  · intro fuel i tasks sizes es szs h
    have hf := wfIterLoop_footer fuel i tasks sizes es szs h
    have hn := wfIterLoop_nh fuel i tasks sizes es szs h
    exact ⟨hf.1, hf.2, hn.1, hn.2⟩
  · intro level hlevel fuel i tasks es szs h
    have ht := textIterLoop_trace level hlevel fuel i tasks [] es szs h
    refine ⟨ht.1, ?_, ht.2.2 rfl⟩
    simpa using ht.2.1

/-- C4, witness for the amended theorem at concrete runs of all three
generators. -/
theorem c4_amended_envelope_discipline_witness :
    ([Emit.header, Emit.header, Emit.body ['X'], Emit.footer].count
          Emit.footer = 1
      ∧ [Emit.header, Emit.header, Emit.body ['X'], Emit.footer].getLast?
          = some Emit.footer
      ∧ noHeaderAfterBody
          [Emit.header, Emit.header, Emit.body ['X'], Emit.footer] false = true
      ∧ (Emit.header ∈ [Emit.header, Emit.header, Emit.body ['X'], Emit.footer]
          ↔ ([⟨0, ⟨200, []⟩⟩, ⟨0, ⟨200, ['X']⟩⟩] : List AsyncResult).any
              (fun t => t.res.status_code = 200) = true))
    ∧ ([Emit.header, Emit.body ['a', 'b'], Emit.footer].count Emit.footer = 1
      ∧ [Emit.header, Emit.body ['a', 'b'], Emit.footer].getLast?
          = some Emit.footer
      ∧ noHeaderAfterBody [Emit.header, Emit.body ['a', 'b'], Emit.footer]
          (decide (([] : List Nat).sum ≠ 0)) = true
      ∧ (Emit.header ∈ [Emit.header, Emit.body ['a', 'b'], Emit.footer]
          ↔ ([⟨0, ⟨200, "[ab]".toList⟩⟩] : List AsyncResult).any
              (fun t => t.res.status_code = 200) = true))
    ∧ (Emit.footer ∉ [Emit.header, Emit.body ['L', '1', '\n']]
      ∧ noHeaderAfterBody [Emit.header, Emit.body ['L', '1', '\n']] false = true
      ∧ (Emit.header ∈ [Emit.header, Emit.body ['L', '1', '\n']]
          ↔ ([⟨0, ⟨200, "L1\n".toList⟩⟩] : List AsyncResult).any
              (fun t => t.res.status_code = 200) = true)) :=
  ⟨c4_amended_envelope_discipline.1 2 0 [⟨0, ⟨200, []⟩⟩, ⟨0, ⟨200, ['X']⟩⟩]
      _ _ rfl,
   (fun hwf => ⟨hwf.1, hwf.2.1, hwf.2.2.1, hwf.2.2.2 rfl⟩)
     (c4_amended_envelope_discipline.2.1 1 0 [⟨0, ⟨200, "[ab]".toList⟩⟩] []
       _ _ rfl),
   c4_amended_envelope_discipline.2.2 "network" (Or.inl rfl) 1 0
     [⟨0, ⟨200, "L1\n".toList⟩⟩] _ _ rfl⟩

end Federator
